import Mathlib

/-!
Verification of the StarRocks `UpdateManager` (be/src/storage/update_manager.cpp):
the delete-vector cache, the delta-column-group cache, the rowset-ingestion
lifecycle hooks and the index-cache eviction policy.

The C++ code is shallowly embedded: each member function becomes a pure Lean
function from an explicit state to a result and a new state.  The persistent
metadata store (`TabletMetaManager`) is external to the translated file and is
modelled as an oracle function passed in as an argument; whether the oracle was
consulted is reported in the result so that cache-hit/miss claims are statable.
Collaborator code that is not part of the translated file is modelled from the
specification and marked as such in its doc comment.
-/

set_option autoImplicit false

namespace UpdateManagerModel

/-- Status codes used by the update manager, mirroring `starrocks::Status`.
Only the constructors that the translated code can produce are modelled. -/
inductive Status where
  | ok : Status
  | internalError (msg : String) : Status
  | memoryLimitExceeded (msg : String) : Status
  | timedOut (msg : String) : Status
  | uninitialized (msg : String) : Status
  | ioError (msg : String) : Status
  deriving DecidableEq

/-- Mirrors `Status::ok()`. -/
def Status.isOk : Status → Bool
  | Status.ok => true
  | _ => false

/-- Mirrors `Status::is_mem_limit_exceeded()`. -/
def Status.isMemLimitExceeded : Status → Bool
  | Status.memoryLimitExceeded _ => true
  | _ => false

/-- Mirrors `Status::is_time_out()`. -/
def Status.isTimeOut : Status → Bool
  | Status.timedOut _ => true
  | _ => false

/-- True exactly for `Status::InternalError`, the invariant-violation status. -/
def Status.isInternalError : Status → Bool
  | Status.internalError _ => true
  | _ => false

/-- The message carried by a status (empty for `ok`), mirroring `Status::message()`. -/
def Status.message : Status → String
  | Status.ok => ""
  | Status.internalError m => m
  | Status.memoryLimitExceeded m => m
  | Status.timedOut m => m
  | Status.uninitialized m => m
  | Status.ioError m => m

/-- Composite segment key `(tablet_id, segment_id)`, as in `TabletSegmentId`. -/
structure TabletSegmentId where
  tabletId : Nat
  segmentId : Nat
  deriving DecidableEq

/-- The `INT64_MAX` sentinel used by the code for unbounded version requests. -/
def int64Max : Int := 9223372036854775807

/-! ### Association-list primitives

The C++ containers `std::unordered_map` and `std::map` are embedded as
association lists; every operation below uses first-match semantics,
consistently for lookup, in-place update and erase, which coincides with map
semantics on duplicate-free states. -/

/-- First-match lookup, as `map::find`. -/
def alLookup {K V : Type} [DecidableEq K] : List (K × V) → K → Option V
  | [], _ => none
  | (k, v) :: rest, key => if k = key then some v else alLookup rest key

/-- Replace the value of the first entry with the given key (`itr->second = w`). -/
def alReplace {K V : Type} [DecidableEq K] : List (K × V) → K → V → List (K × V)
  | [], _, _ => []
  | (k, v) :: rest, key, w =>
      if k = key then (k, w) :: rest else (k, v) :: alReplace rest key w

/-- Erase the first entry with the given key (`map::erase(iterator)`). -/
def alErase {K V : Type} [DecidableEq K] : List (K × V) → K → List (K × V)
  | [], _ => []
  | (k, v) :: rest, key => if k = key then rest else (k, v) :: alErase rest key

/-- Total weight of the stored values under a weight function (used to state
memory-tracker consistency). -/
def alWeight {K V : Type} (w : V → Nat) : List (K × V) → Nat
  | [] => 0
  | (_, v) :: rest => w v + alWeight w rest

theorem alLookup_cons {K V : Type} [DecidableEq K] (k key : K) (v : V) (rest : List (K × V)) :
    alLookup ((k, v) :: rest) key = if k = key then some v else alLookup rest key := rfl

theorem alLookup_alReplace_self {K V : Type} [DecidableEq K]
    {l : List (K × V)} {key : K} {v : V} (w : V)
    (h : alLookup l key = some v) : alLookup (alReplace l key w) key = some w := by
  induction l with
  | nil => simp [alLookup] at h
  | cons p rest ih =>
      obtain ⟨k, u⟩ := p
      by_cases hk : k = key
      · simp [alReplace, alLookup, hk]
      · simp [alReplace, alLookup, hk] at h ⊢
        exact ih h

theorem alLookup_alReplace_ne {K V : Type} [DecidableEq K]
    (l : List (K × V)) (key other : K) (w : V) (hne : other ≠ key) :
    alLookup (alReplace l key w) other = alLookup l other := by
  induction l with
  | nil => simp [alReplace]
  | cons p rest ih =>
      obtain ⟨k, u⟩ := p
      by_cases hk : k = key
      · subst hk
        have hko : ¬ k = other := fun h => hne (h.symm)
        simp [alReplace, alLookup, hko]
      · simp only [alReplace, hk, if_neg hk, alLookup]
        by_cases hko : k = other
        · simp [hko]
        · simp [hko, ih]

theorem alWeight_lookup_le {K V : Type} [DecidableEq K] (w : V → Nat)
    {l : List (K × V)} {key : K} {v : V}
    (h : alLookup l key = some v) : w v ≤ alWeight w l := by
  induction l with
  | nil => simp [alLookup] at h
  | cons p rest ih =>
      obtain ⟨k, u⟩ := p
      by_cases hk : k = key
      · simp [alLookup, hk] at h
        subst h
        simp [alWeight]
      · simp [alLookup, hk] at h
        calc w v ≤ alWeight w rest := ih h
          _ ≤ w u + alWeight w rest := Nat.le_add_left _ _

theorem alWeight_alReplace {K V : Type} [DecidableEq K] (w : V → Nat)
    {l : List (K × V)} {key : K} {v : V} (u : V)
    (h : alLookup l key = some v) :
    alWeight w (alReplace l key u) + w v = alWeight w l + w u := by
  induction l with
  | nil => simp [alLookup] at h
  | cons p rest ih =>
      obtain ⟨k, x⟩ := p
      by_cases hk : k = key
      · simp [alLookup, hk] at h
        subst h
        simp [alReplace, hk, alWeight]
        omega
      · simp [alLookup, hk] at h
        simp [alReplace, hk, alWeight]
        have := ih h
        omega

theorem alWeight_alErase {K V : Type} [DecidableEq K] (w : V → Nat)
    {l : List (K × V)} {key : K} {v : V}
    (h : alLookup l key = some v) :
    alWeight w (alErase l key) + w v = alWeight w l := by
  induction l with
  | nil => simp [alLookup] at h
  | cons p rest ih =>
      obtain ⟨k, x⟩ := p
      by_cases hk : k = key
      · simp [alLookup, hk] at h
        subst h
        simp [alErase, hk, alWeight]
        omega
      · simp [alLookup, hk] at h
        simp [alErase, hk, alWeight]
        have := ih h
        omega

/-! ### Delete-vector cache (`_del_vec_cache`) -/

/-- A delete vector: a published bitmap abstracted to its version, its
deleted-row count and its `memory_usage()`.  The bitmap payload itself is not
inspected by any of the translated cache operations. -/
structure DelVector where
  version : Int
  cardinality : Nat
  memoryUsage : Nat
  deriving DecidableEq

/-- State of the delete-vector cache: the keyed container `_del_vec_cache`
together with the consumption of `_del_vec_cache_mem_tracker`.  The tracker is
a plain counter; `release` clamps at zero via truncated subtraction. -/
structure DelVecCacheState where
  cache : List (TabletSegmentId × DelVector)
  tracker : Nat
  deriving DecidableEq

/-- The persistent metadata store, seen through
`UpdateManager::get_del_vec_in_meta` / `TabletMetaManager::get_del_vector`:
given a segment key and a requested version it yields the loaded delete vector
together with the store's reported latest version, or an error status. -/
def DelVecStore : Type := TabletSegmentId → Int → Except Status (DelVector × Int)

/-- Result of a delete-vector read: the returned status, the out-parameter
`*pdelvec` (absent when the call failed before producing a vector), the cache
state after the call, and whether the persistent store was consulted. -/
structure GetDelVecResult where
  status : Status
  result : Option DelVector
  state : DelVecCacheState
  storeAccessed : Bool
  deriving DecidableEq

/-- The load-and-back-fill tail of `UpdateManager::get_del_vec` (lines
203-219): load from the store; if the loaded version equals the reported
latest version, publish into the cache — inserting when the key is absent, or
replacing only when the latest version strictly exceeds the cached version
(releasing the old vector's memory and consuming the new one). -/
def getDelVecLoad (store : DelVecStore) (st : DelVecCacheState) (tsid : TabletSegmentId)
    (version : Int) : GetDelVecResult :=
  match store tsid version with
  | Except.error e => ⟨e, none, st, true⟩
  | Except.ok (loaded, latestVersion) =>
      if loaded.version = latestVersion then
        match alLookup st.cache tsid with
        | none =>
            ⟨Status.ok, some loaded,
              ⟨(tsid, loaded) :: st.cache, st.tracker + loaded.memoryUsage⟩, true⟩
        | some old =>
            if old.version < latestVersion then
              ⟨Status.ok, some loaded,
                ⟨alReplace st.cache tsid loaded,
                 st.tracker - old.memoryUsage + loaded.memoryUsage⟩, true⟩
            else ⟨Status.ok, some loaded, st, true⟩
      else ⟨Status.ok, some loaded, st, true⟩

/-- `UpdateManager::get_del_vec` (lines 188-219): serve from the cache when the
requested version is at or above the cached vector's version
(`version >= itr->second->version()`), otherwise fall through to the store. -/
def getDelVec (store : DelVecStore) (st : DelVecCacheState) (tsid : TabletSegmentId)
    (version : Int) : GetDelVecResult :=
  match alLookup st.cache tsid with
  | some dv =>
      if dv.version ≤ version then ⟨Status.ok, some dv, st, false⟩
      else getDelVecLoad store st tsid version
  | none => getDelVecLoad store st tsid version

/-- The error message built by `set_cached_del_vec` on a version regression. -/
def setCachedDelVecErrMsg (newVersion oldVersion : Int) : String :=
  "UpdateManager::set_cached_del_vec: new version(" ++ toString newVersion ++
    ") < old version(" ++ toString oldVersion ++ ")"

/-- `UpdateManager::set_cached_del_vec` (lines 516-537): publishing a vector
whose version is at or below the cached one fails with `InternalError` and
changes nothing; otherwise the entry is replaced (or inserted when absent)
with the matching tracker release/consume. -/
def setCachedDelVec (st : DelVecCacheState) (tsid : TabletSegmentId) (dv : DelVector) :
    Status × DelVecCacheState :=
  match alLookup st.cache tsid with
  | some old =>
      if dv.version ≤ old.version then
        (Status.internalError (setCachedDelVecErrMsg dv.version old.version), st)
      else
        (Status.ok,
          ⟨alReplace st.cache tsid dv, st.tracker - old.memoryUsage + dv.memoryUsage⟩)
  | none => (Status.ok, ⟨(tsid, dv) :: st.cache, st.tracker + dv.memoryUsage⟩)

/-- `UpdateManager::get_latest_del_vec` (lines 499-514): return the cached
vector on a hit; on a miss load from the store with the unbounded requested
version `INT64_MAX`, insert the loaded vector into the cache and return it. -/
def getLatestDelVec (store : DelVecStore) (st : DelVecCacheState) (tsid : TabletSegmentId) :
    GetDelVecResult :=
  match alLookup st.cache tsid with
  | some dv => ⟨Status.ok, some dv, st, false⟩
  | none =>
      match store tsid int64Max with
      | Except.error e => ⟨e, none, st, true⟩
      | Except.ok (loaded, _) =>
          ⟨Status.ok, some loaded,
            ⟨(tsid, loaded) :: st.cache, st.tracker + loaded.memoryUsage⟩, true⟩

/-- One step of `UpdateManager::clear_cached_del_vec` (lines 264-273): erase
the entry for one key, releasing its tracked memory. -/
def clearCachedDelVecOne (st : DelVecCacheState) (tsid : TabletSegmentId) : DelVecCacheState :=
  match alLookup st.cache tsid with
  | some dv => ⟨alErase st.cache tsid, st.tracker - dv.memoryUsage⟩
  | none => st

/-- `UpdateManager::clear_cached_del_vec`: erase each listed key in turn. -/
def clearCachedDelVec (st : DelVecCacheState) (tsids : List TabletSegmentId) : DelVecCacheState :=
  tsids.foldl clearCachedDelVecOne st

/-- Loop body of `UpdateManager::clear_cached_del_vec_by_tablet_id` (lines
252-262): walk the container, releasing and erasing every entry of the
tablet. -/
def clearDelVecByTabletGo (tabletId : Nat) :
    List (TabletSegmentId × DelVector) → Nat → List (TabletSegmentId × DelVector) × Nat
  | [], tracker => ([], tracker)
  | (k, v) :: rest, tracker =>
      if k.tabletId = tabletId then clearDelVecByTabletGo tabletId rest (tracker - v.memoryUsage)
      else
        let r := clearDelVecByTabletGo tabletId rest tracker
        ((k, v) :: r.1, r.2)

/-- `UpdateManager::clear_cached_del_vec_by_tablet_id`. -/
def clearCachedDelVecByTabletId (st : DelVecCacheState) (tabletId : Nat) : DelVecCacheState :=
  let r := clearDelVecByTabletGo tabletId st.cache st.tracker
  ⟨r.1, r.2⟩

/-! ### Delta-column-group cache (`_delta_column_group_cache`) -/

/-- A delta column group: a column-delta record abstracted to the version at
which it became effective and its `memory_usage()`. -/
structure DeltaColumnGroup where
  version : Int
  memoryUsage : Nat
  deriving DecidableEq

/-- The most-recent-first list of delta column groups of one segment. -/
abbrev DeltaColumnGroupList := List DeltaColumnGroup

/-- Modelled from the spec: `StorageEngine::search_delta_column_groups_by_version`
is not part of the translated file; per the data model, a lookup for read
version V yields the list of deltas still relevant, i.e. it appends to the
output every cached delta whose effective version is at or below V. -/
def searchDeltaColumnGroupsByVersion (all : DeltaColumnGroupList) (version : Int)
    (out : DeltaColumnGroupList) : DeltaColumnGroupList :=
  out ++ all.filter (fun d => d.version ≤ version)

/-- Modelled from the spec: `StorageEngine::delta_column_group_list_memory_usage`
is not part of the translated file; the memory usage of a list is the sum of
its members' usages. -/
def deltaColumnGroupListMemoryUsage : DeltaColumnGroupList → Nat
  | [] => 0
  | d :: rest => d.memoryUsage + deltaColumnGroupListMemoryUsage rest

/-- State of the delta-column-group cache: the keyed container together with
the consumption of `_delta_column_group_cache_mem_tracker`. -/
structure DcgCacheState where
  cache : List (TabletSegmentId × DeltaColumnGroupList)
  tracker : Nat
  deriving DecidableEq

/-- The persistent metadata store seen through
`TabletMetaManager::get_delta_column_group`: given a segment key and an upper
version bound it yields the stored list, or an error status. -/
def DcgStore : Type := TabletSegmentId → Int → Except Status DeltaColumnGroupList

/-- Result of a delta-column-group read: status, the filled output list, the
cache state after the call, and whether the persistent store was consulted. -/
structure GetDcgResult where
  status : Status
  out : DeltaColumnGroupList
  state : DcgCacheState
  storeAccessed : Bool
  deriving DecidableEq

/-- `UpdateManager::get_delta_column_group` (lines 157-186): on a hit, filter
the cached full list by the requested version; on a miss, load the full list
from the store with upper bound `INT64_MAX`, filter it for the caller, and
insert the full list (empty or not) into the cache, consuming its memory.
(The source re-checks presence under the second lock via `insert(...).second`;
in this sequential embedding the key is still absent there, so the insert
always succeeds.) -/
def getDeltaColumnGroup (store : DcgStore) (st : DcgCacheState) (tsid : TabletSegmentId)
    (version : Int) (out : DeltaColumnGroupList) : GetDcgResult :=
  match alLookup st.cache tsid with
  | some cached =>
      ⟨Status.ok, searchDeltaColumnGroupsByVersion cached version out, st, false⟩
  | none =>
      match store tsid int64Max with
      | Except.error e => ⟨e, out, st, true⟩
      | Except.ok newDcgs =>
          ⟨Status.ok, searchDeltaColumnGroupsByVersion newDcgs version out,
            ⟨(tsid, newDcgs) :: st.cache,
             st.tracker + deltaColumnGroupListMemoryUsage newDcgs⟩, true⟩

/-- `UpdateManager::get_cached_delta_column_group` (lines 366-378): a pure read
of the cache — it takes no store handle at all; on a hit it returns `true` and
the filtered deltas appended to the output, on a miss it returns `false`
leaving the output as given.  The cache state is not part of the result
because the source only reads the container under its lock. -/
def getCachedDeltaColumnGroup (st : DcgCacheState) (tsid : TabletSegmentId) (version : Int)
    (out : DeltaColumnGroupList) : Bool × DeltaColumnGroupList :=
  match alLookup st.cache tsid with
  | some cached => (true, searchDeltaColumnGroupsByVersion cached version out)
  | none => (false, out)

/-- `UpdateManager::set_cached_delta_column_group` (lines 380-405): when the
key is cached, prepend the new delta (most-recent-first) and consume its
memory; otherwise load the full list from the store first and cache that.
(The source's release-then-overwrite branch after the reload handles a
concurrent insert and is unreachable in this sequential embedding.) -/
def setCachedDeltaColumnGroup (store : DcgStore) (st : DcgCacheState) (tsid : TabletSegmentId)
    (dcg : DeltaColumnGroup) : Status × DcgCacheState :=
  match alLookup st.cache tsid with
  | some cached =>
      (Status.ok, ⟨alReplace st.cache tsid (dcg :: cached), st.tracker + dcg.memoryUsage⟩)
  | none =>
      match store tsid int64Max with
      | Except.error e => (e, st)
      | Except.ok newDcgs =>
          (Status.ok, ⟨(tsid, newDcgs) :: st.cache,
            st.tracker + deltaColumnGroupListMemoryUsage newDcgs⟩)

/-- `UpdateManager::set_cached_empty_delta_column_group` (lines 340-364): do
nothing when the key is cached; otherwise consult the store and seed the cache
only when the store also has no deltas for the segment. -/
def setCachedEmptyDeltaColumnGroup (store : DcgStore) (st : DcgCacheState)
    (tsid : TabletSegmentId) : Status × DcgCacheState :=
  match alLookup st.cache tsid with
  | some _ => (Status.ok, st)
  | none =>
      match store tsid int64Max with
      | Except.error e => (e, st)
      | Except.ok newDcgs =>
          if newDcgs.isEmpty then (Status.ok, ⟨(tsid, newDcgs) :: st.cache, st.tracker⟩)
          else (Status.ok, st)

/-- One step of `UpdateManager::clear_cached_delta_column_group` (lines
328-338): erase the entry for one key, releasing its list's tracked memory. -/
def clearCachedDcgOne (st : DcgCacheState) (tsid : TabletSegmentId) : DcgCacheState :=
  match alLookup st.cache tsid with
  | some l => ⟨alErase st.cache tsid, st.tracker - deltaColumnGroupListMemoryUsage l⟩
  | none => st

/-- `UpdateManager::clear_cached_delta_column_group`. -/
def clearCachedDcg (st : DcgCacheState) (tsids : List TabletSegmentId) : DcgCacheState :=
  tsids.foldl clearCachedDcgOne st

/-- Loop body of `UpdateManager::clear_cached_delta_column_group_by_tablet_id`
(lines 315-326). -/
def clearDcgByTabletGo (tabletId : Nat) :
    List (TabletSegmentId × DeltaColumnGroupList) → Nat →
    List (TabletSegmentId × DeltaColumnGroupList) × Nat
  | [], tracker => ([], tracker)
  | (k, l) :: rest, tracker =>
      if k.tabletId = tabletId then
        clearDcgByTabletGo tabletId rest (tracker - deltaColumnGroupListMemoryUsage l)
      else
        let r := clearDcgByTabletGo tabletId rest tracker
        ((k, l) :: r.1, r.2)

/-- `UpdateManager::clear_cached_delta_column_group_by_tablet_id`. -/
def clearCachedDcgByTabletId (st : DcgCacheState) (tabletId : Nat) : DcgCacheState :=
  let r := clearDcgByTabletGo tabletId st.cache st.tracker
  ⟨r.1, r.2⟩

/-- Modelled from the spec: `DeltaColumnGroupListHelper::garbage_collection` is
not part of the translated file; per the spec it removes from the cached list
exactly the deltas whose effective version is below `min_readable_version`
(they are unreachable by any future read) and collects each removed delta's
`(segment key, version)` pair for batched deletion from the metadata store.
The physical file names it also collects are outside the data model here
(filesystem deletion is out of the spec's scope). -/
def garbageCollection (l : DeltaColumnGroupList) (tsid : TabletSegmentId)
    (minReadableVersion : Int) : DeltaColumnGroupList × List (TabletSegmentId × Int) :=
  (l.filter (fun d => minReadableVersion ≤ d.version),
   (l.filter (fun d => d.version < minReadableVersion)).map (fun d => (tsid, d.version)))

/-- The bounded sweep of `UpdateManager::clear_delta_column_group_before_version`
(lines 288-297).  The source iterates the ordered container over the tablet's
keys and stops when a 10 ms wall-clock budget expires; real time is embedded as
a fuel counter bounding how many of the tablet's entries are processed.
Entries of other tablets are never touched.  Note that the source updates the
cached lists without releasing the removed deltas' tracked memory. -/
def clearDcgGo (tabletId : Nat) (minV : Int) :
    Nat → List (TabletSegmentId × DeltaColumnGroupList) →
    List (TabletSegmentId × DeltaColumnGroupList) × List (TabletSegmentId × Int)
  | _, [] => ([], [])
  | budget, (k, l) :: rest =>
      if k.tabletId = tabletId then
        match budget with
        | 0 => ((k, l) :: rest, [])
        | b + 1 =>
            let g := garbageCollection l k minV
            let r := clearDcgGo tabletId minV b rest
            ((k, g.1) :: r.1, g.2 ++ r.2)
      else
        let r := clearDcgGo tabletId minV budget rest
        ((k, l) :: r.1, r.2)

/-- `UpdateManager::clear_delta_column_group_before_version` (lines 275-313):
sweep the tablet's cached entries within the time budget, then delete the
collected pairs from the metadata store in one batch and remove their files;
returns the number of deltas removed.  `storeAndFsOk` stands for the combined
success of `meta->write_batch` and the filesystem-handle creation, whose
failure is propagated (the sweep's cache mutation has already happened). -/
def clearDeltaColumnGroupBeforeVersion (budget : Nat) (st : DcgCacheState) (tabletId : Nat)
    (minReadableVersion : Int) (storeAndFsOk : Bool) : Except Status Nat × DcgCacheState :=
  let r := clearDcgGo tabletId minReadableVersion budget st.cache
  let st2 : DcgCacheState := ⟨r.1, st.tracker⟩
  if storeAndFsOk then (Except.ok r.2.length, st2)
  else (Except.error (Status.ioError ("write_batch failed")), st2)

/-! ### Generic reference-counted state cache (`DynamicCache`)

`DynamicCache` itself is not part of the translated file; its operations are
modelled from the spec's generic-cache contract (section 4.2): `get_or_create`
returns the existing entry with its refcount incremented or inserts a fresh
entry with refcount 1; `release` decrements the refcount; `remove` unlinks the
entry unconditionally; `get` returns the entry (refcount incremented) or
nothing.  Expiration timestamps are omitted — no settled claim inspects
them. -/

/-- An entry of the row-mode or column-mode update-state cache.  The update
state value itself is opaque; only its bookkeeping is modelled. -/
structure StateCacheEntry where
  refcnt : Nat
  objSize : Nat
  deriving DecidableEq

/-- A keyed reference-counted cache (`DynamicCache<string, ...>`). -/
structure StateCache where
  entries : List (String × StateCacheEntry)
  deriving DecidableEq

/-- Modelled from the spec: `DynamicCache::get_or_create`. -/
def cacheGetOrCreate (c : StateCache) (key : String) : StateCache :=
  match alLookup c.entries key with
  | some e => ⟨alReplace c.entries key ⟨e.refcnt + 1, e.objSize⟩⟩
  | none => ⟨(key, ⟨1, 0⟩) :: c.entries⟩

/-- Modelled from the spec: `DynamicCache::release` (refcount decrement). -/
def cacheRelease (c : StateCache) (key : String) : StateCache :=
  match alLookup c.entries key with
  | some e => ⟨alReplace c.entries key ⟨e.refcnt - 1, e.objSize⟩⟩
  | none => c

/-- Modelled from the spec: `DynamicCache::remove` (unconditional unlink). -/
def cacheRemove (c : StateCache) (key : String) : StateCache :=
  ⟨alErase c.entries key⟩

/-- Modelled from the spec: `DynamicCache::update_object_size`. -/
def cacheUpdateObjectSize (c : StateCache) (key : String) (size : Nat) : StateCache :=
  match alLookup c.entries key with
  | some e => ⟨alReplace c.entries key ⟨e.refcnt, size⟩⟩
  | none => c

/-- Tablet lifecycle states relevant to `on_rowset_finished`. -/
inductive TabletState where
  | normal : TabletState
  | notReady : TabletState
  | shutdown : TabletState
  deriving DecidableEq

/-- The rowset attributes consulted by the ingestion lifecycle hooks. -/
structure RowsetInfo where
  tabletId : Nat
  rowsetUid : String
  hasDataFiles : Bool
  isPartialUpdate : Bool
  isColumnModePartialUpdate : Bool
  deriving DecidableEq

/-- The `"$0_$1"` cache key built by `strings::Substitute` from the tablet id
and the rowset's unique id. -/
def rowsetStateKey (r : RowsetInfo) : String :=
  toString r.tabletId ++ "_" ++ r.rowsetUid

/-- The two update-state caches owned by the update manager. -/
structure UMStateCaches where
  updateStateCache : StateCache
  updateColumnStateCache : StateCache
  deriving DecidableEq

/-- `UpdateManager::on_rowset_finished` (lines 540-619).  External
collaborators enter as parameters: `pindexLoadStatus` is the result of
`_pindex_load_executor->submit_task_and_wait_for`, consulted only for partial
updates; `loadStatus` and `loadedMemoryUsage` are the result and
`memory_usage()` of the row-mode or column-mode update-state loader.  A no-op
for rowsets without data files or tablets mid schema-change; on load failure
the entry is removed, and a memory-limit or timeout failure is absorbed into
an OK return while any other failure is propagated. -/
def onRowsetFinished (st : UMStateCaches) (tabletState : TabletState) (r : RowsetInfo)
    (pindexLoadStatus : Status) (loadStatus : Status) (loadedMemoryUsage : Nat) :
    Status × UMStateCaches :=
  if !r.hasDataFiles || tabletState = TabletState.notReady then (Status.ok, st)
  else if r.isPartialUpdate && !pindexLoadStatus.isOk then
    (Status.uninitialized pindexLoadStatus.message, st)
  else
    let key := rowsetStateKey r
    let final := if loadStatus.isMemLimitExceeded || loadStatus.isTimeOut then Status.ok
                 else loadStatus
    if r.isColumnModePartialUpdate then
      let c1 := cacheGetOrCreate st.updateColumnStateCache key
      let c2 := cacheUpdateObjectSize c1 key loadedMemoryUsage
      let c3 := if loadStatus.isOk then cacheRelease c2 key else cacheRemove c2 key
      (final, ⟨st.updateStateCache, c3⟩)
    else
      let c1 := cacheGetOrCreate st.updateStateCache key
      let c2 := cacheUpdateObjectSize c1 key loadedMemoryUsage
      let c3 := if loadStatus.isOk then cacheRelease c2 key else cacheRemove c2 key
      (final, ⟨c3, st.updateColumnStateCache⟩)

/-- `UpdateManager::TEST_update_state_exist` (lines 639-656): probe the cache
selected by the rowset kind for the pair's key.  The source's `get` /
`release` pairing leaves refcounts unchanged, so only the hit flag is
modelled. -/
def TESTUpdateStateExist (st : UMStateCaches) (r : RowsetInfo) : Bool :=
  let key := rowsetStateKey r
  if r.isColumnModePartialUpdate then (alLookup st.updateColumnStateCache.entries key).isSome
  else (alLookup st.updateStateCache.entries key).isSome

/-! ### Index cache eviction (`evict_cache`) -/

/-- An entry of the primary-key index cache: keyed by tablet id, with its
`object_size` and reference count. -/
structure IndexCacheEntry where
  id : Nat
  objSize : Nat
  refcnt : Nat
  deriving DecidableEq

/-- The primary-key index cache `_index_cache`: a byte capacity and its
entries. -/
structure IndexCache where
  capacity : Nat
  entries : List IndexCacheEntry
  deriving DecidableEq

/-- `DynamicCache::size()`: total object size of the entries. -/
def indexCacheSize (c : IndexCache) : Nat :=
  (c.entries.map IndexCacheEntry.objSize).sum

/-- Choose the largest refcount-zero entry, or nothing when every entry is
still referenced. -/
def pickLargestEvictable : List IndexCacheEntry → Option IndexCacheEntry
  | [] => none
  | e :: rest =>
      match pickLargestEvictable rest with
      | none => if e.refcnt = 0 then some e else none
      | some b =>
          if e.refcnt = 0 && b.objSize ≤ e.objSize then some e else some b

/-- Remove the first occurrence of an entry. -/
def removeEntry : List IndexCacheEntry → IndexCacheEntry → List IndexCacheEntry
  | [], _ => []
  | x :: rest, e => if x = e then rest else x :: removeEntry rest e

/-- Modelled from the spec: `DynamicCache::try_evict` is not part of the
translated file; per the spec it removes refcount-zero entries — largest
`object_size` first for the index cache — until the total size is at or below
the target, skipping any entry still referenced.  The fuel is the entry count,
enough to visit every entry once. -/
def tryEvictGo (target : Nat) : Nat → List IndexCacheEntry → List IndexCacheEntry
  | 0, es => es
  | fuel + 1, es =>
      if (es.map IndexCacheEntry.objSize).sum ≤ target then es
      else
        match pickLargestEvictable es with
        | none => es
        | some e => tryEvictGo target fuel (removeEntry es e)

/-- Modelled from the spec: `DynamicCache::try_evict` on the index cache. -/
def tryEvict (c : IndexCache) (target : Nat) : IndexCache :=
  ⟨c.capacity, tryEvictGo target c.entries.length c.entries⟩

/-- First stage of `UpdateManager::evict_cache` (lines 441-443): evict to the
urgent watermark only when the size exceeds it. -/
def evictStage1 (c : IndexCache) (memoryUrgent : Nat) : IndexCache :=
  if memoryUrgent < indexCacheSize c then tryEvict c memoryUrgent else c

/-- Second stage of `UpdateManager::evict_cache` (lines 445-449): re-measure,
and when still above the high watermark evict to
`max(size * 9 / 10, memory_high)`. -/
def evictStage2 (c1 : IndexCache) (memoryHigh : Nat) : IndexCache :=
  if memoryHigh < indexCacheSize c1 then
    tryEvict c1 (max (indexCacheSize c1 * 9 / 10) memoryHigh)
  else c1

/-- `UpdateManager::evict_cache` (lines 435-452): the damped two-stage eviction
policy; the returned flag is `_keep_pindex_bf`, cleared exactly when the
resulting size still exceeds the high watermark. -/
def evictCache (c : IndexCache) (memoryUrgentLevel memoryHighLevel : Nat) :
    IndexCache × Bool :=
  let memoryUrgent := c.capacity * memoryUrgentLevel / 100
  let memoryHigh := c.capacity * memoryHighLevel / 100
  let c2 := evictStage2 (evictStage1 c memoryUrgent) memoryHigh
  (c2, decide (indexCacheSize c2 ≤ memoryHigh))

/-! ### Computation lemmas for the delete-vector operations -/

theorem getDelVecLoad_error {store : DelVecStore} {st : DelVecCacheState}
    {tsid : TabletSegmentId} {version : Int} {e : Status}
    (hst : store tsid version = Except.error e) :
    getDelVecLoad store st tsid version = ⟨e, none, st, true⟩ := by
  simp [getDelVecLoad, hst]

theorem getDelVecLoad_stale {store : DelVecStore} {st : DelVecCacheState}
    {tsid : TabletSegmentId} {version latest : Int} {loaded : DelVector}
    (hst : store tsid version = Except.ok (loaded, latest))
    (hll : loaded.version ≠ latest) :
    getDelVecLoad store st tsid version = ⟨Status.ok, some loaded, st, true⟩ := by
  simp [getDelVecLoad, hst, hll]

theorem getDelVecLoad_insert {store : DelVecStore} {st : DelVecCacheState}
    {tsid : TabletSegmentId} {version latest : Int} {loaded : DelVector}
    (hst : store tsid version = Except.ok (loaded, latest))
    (hll : loaded.version = latest) (hl : alLookup st.cache tsid = none) :
    getDelVecLoad store st tsid version =
      ⟨Status.ok, some loaded,
        ⟨(tsid, loaded) :: st.cache, st.tracker + loaded.memoryUsage⟩, true⟩ := by
  simp [getDelVecLoad, hst, hll, hl]

theorem getDelVecLoad_replace {store : DelVecStore} {st : DelVecCacheState}
    {tsid : TabletSegmentId} {version latest : Int} {loaded old : DelVector}
    (hst : store tsid version = Except.ok (loaded, latest))
    (hll : loaded.version = latest) (hl : alLookup st.cache tsid = some old)
    (hlt : old.version < latest) :
    getDelVecLoad store st tsid version =
      ⟨Status.ok, some loaded,
        ⟨alReplace st.cache tsid loaded,
         st.tracker - old.memoryUsage + loaded.memoryUsage⟩, true⟩ := by
  simp [getDelVecLoad, hst, hll, hl, hlt]

theorem getDelVecLoad_keep {store : DelVecStore} {st : DelVecCacheState}
    {tsid : TabletSegmentId} {version latest : Int} {loaded old : DelVector}
    (hst : store tsid version = Except.ok (loaded, latest))
    (hll : loaded.version = latest) (hl : alLookup st.cache tsid = some old)
    (hge : ¬ old.version < latest) :
    getDelVecLoad store st tsid version = ⟨Status.ok, some loaded, st, true⟩ := by
  simp [getDelVecLoad, hst, hll, hl, hge]

theorem getDelVec_hit {store : DelVecStore} {st : DelVecCacheState}
    {tsid : TabletSegmentId} {version : Int} {dv : DelVector}
    (hl : alLookup st.cache tsid = some dv) (hle : dv.version ≤ version) :
    getDelVec store st tsid version = ⟨Status.ok, some dv, st, false⟩ := by
  simp [getDelVec, hl, hle]

theorem getDelVec_miss_absent {store : DelVecStore} {st : DelVecCacheState}
    {tsid : TabletSegmentId} {version : Int}
    (hl : alLookup st.cache tsid = none) :
    getDelVec store st tsid version = getDelVecLoad store st tsid version := by
  simp [getDelVec, hl]

theorem getDelVec_miss_stale {store : DelVecStore} {st : DelVecCacheState}
    {tsid : TabletSegmentId} {version : Int} {dv : DelVector}
    (hl : alLookup st.cache tsid = some dv) (hgt : ¬ dv.version ≤ version) :
    getDelVec store st tsid version = getDelVecLoad store st tsid version := by
  simp [getDelVec, hl, hgt]

theorem setCachedDelVec_regress {st : DelVecCacheState} {tsid : TabletSegmentId}
    {dv old : DelVector} (hl : alLookup st.cache tsid = some old)
    (hle : dv.version ≤ old.version) :
    setCachedDelVec st tsid dv =
      (Status.internalError (setCachedDelVecErrMsg dv.version old.version), st) := by
  simp [setCachedDelVec, hl, hle]

theorem setCachedDelVec_replace {st : DelVecCacheState} {tsid : TabletSegmentId}
    {dv old : DelVector} (hl : alLookup st.cache tsid = some old)
    (hgt : ¬ dv.version ≤ old.version) :
    setCachedDelVec st tsid dv =
      (Status.ok, ⟨alReplace st.cache tsid dv,
        st.tracker - old.memoryUsage + dv.memoryUsage⟩) := by
  simp [setCachedDelVec, hl, hgt]

theorem setCachedDelVec_insert {st : DelVecCacheState} {tsid : TabletSegmentId}
    {dv : DelVector} (hl : alLookup st.cache tsid = none) :
    setCachedDelVec st tsid dv =
      (Status.ok, ⟨(tsid, dv) :: st.cache, st.tracker + dv.memoryUsage⟩) := by
  simp [setCachedDelVec, hl]

theorem setCachedDelVec_ok_lookup {st st' : DelVecCacheState} {tsid : TabletSegmentId}
    {dv : DelVector} (h : setCachedDelVec st tsid dv = (Status.ok, st')) :
    alLookup st'.cache tsid = some dv := by
  cases hl : alLookup st.cache tsid with
  | none =>
      rw [setCachedDelVec_insert hl] at h
      cases h
      simp [alLookup]
  | some old =>
      by_cases hle : dv.version ≤ old.version
      · rw [setCachedDelVec_regress hl hle] at h
        cases h
      · rw [setCachedDelVec_replace hl hle] at h
        cases h
        exact alLookup_alReplace_self dv hl

/-! ### Claim theorems: delete-vector cache -/

/-- C1: for every segment key the cached delete-vector version is monotonically
non-decreasing under `get_del_vec` and `set_cached_del_vec`: publishing a
vector whose version is at or below the currently cached one fails with the
invariant-violation `InternalError` status and leaves the cache state
unchanged, and the back-fill step of `get_del_vec` never replaces a cached
vector with one of lower or equal version — whenever the key remains cached,
its version has not decreased, and any actual replacement strictly increases
it. -/
theorem del_vec_version_monotonic :
    (∀ (st : DelVecCacheState) (tsid : TabletSegmentId) (dv old : DelVector),
      alLookup st.cache tsid = some old → dv.version ≤ old.version →
      (setCachedDelVec st tsid dv).1.isInternalError = true ∧
      (setCachedDelVec st tsid dv).2 = st) ∧
    (∀ (store : DelVecStore) (st : DelVecCacheState) (tsid : TabletSegmentId) (version : Int)
      (old nw : DelVector),
      alLookup st.cache tsid = some old →
      alLookup (getDelVec store st tsid version).state.cache tsid = some nw →
      old.version ≤ nw.version ∧ (nw ≠ old → old.version < nw.version)) := by
  constructor
  · intro st tsid dv old hl hle
    rw [setCachedDelVec_regress hl hle]
    exact ⟨rfl, rfl⟩
  · intro store st tsid version old nw hl hnew
    have same : ∀ (r : GetDelVecResult), getDelVec store st tsid version = r → r.state = st →
        old.version ≤ nw.version ∧ (nw ≠ old → old.version < nw.version) := by
      intro r hr hstate
      rw [hr, hstate, hl] at hnew
      cases hnew
      exact ⟨le_refl _, fun h => absurd rfl h⟩
    by_cases hver : old.version ≤ version
    · exact same _ (getDelVec_hit hl hver) rfl
    · rw [getDelVec_miss_stale hl hver] at hnew
      cases hst : store tsid version with
      | error e =>
          rw [getDelVecLoad_error hst] at hnew
          rw [hl] at hnew
          cases hnew
          exact ⟨le_refl _, fun h => absurd rfl h⟩
      | ok p =>
          obtain ⟨loaded, latest⟩ := p
          by_cases hll : loaded.version = latest
          · by_cases hlt : old.version < latest
            · rw [getDelVecLoad_replace hst hll hl hlt] at hnew
              rw [alLookup_alReplace_self loaded hl] at hnew
              cases hnew
              omega
            · rw [getDelVecLoad_keep hst hll hl hlt] at hnew
              rw [hl] at hnew
              cases hnew
              exact ⟨le_refl _, fun h => absurd rfl h⟩
          · rw [getDelVecLoad_stale hst hll] at hnew
            rw [hl] at hnew
            cases hnew
            exact ⟨le_refl _, fun h => absurd rfl h⟩

/-- C1 witness: publishing version 4 over cached version 5 fails with
`InternalError` and changes nothing, and a back-fill over cached version 5
that replaces it (store latest 6) strictly increases the version. -/
theorem del_vec_version_monotonic_witness :
    ((setCachedDelVec ⟨[(⟨1, 2⟩, ⟨5, 0, 8⟩)], 8⟩ ⟨1, 2⟩ ⟨4, 0, 3⟩).1.isInternalError = true ∧
     (setCachedDelVec ⟨[(⟨1, 2⟩, ⟨5, 0, 8⟩)], 8⟩ ⟨1, 2⟩ ⟨4, 0, 3⟩).2 =
       ⟨[(⟨1, 2⟩, ⟨5, 0, 8⟩)], 8⟩) ∧
    ((5 : Int) ≤ (6 : Int) ∧ ((⟨6, 0, 2⟩ : DelVector) ≠ ⟨5, 0, 8⟩ → (5 : Int) < 6)) :=
  ⟨del_vec_version_monotonic.1 ⟨[(⟨1, 2⟩, ⟨5, 0, 8⟩)], 8⟩ ⟨1, 2⟩ ⟨4, 0, 3⟩ ⟨5, 0, 8⟩
      (by decide) (by decide),
   del_vec_version_monotonic.2 (fun _ _ => Except.ok (⟨6, 0, 2⟩, 6))
      ⟨[(⟨1, 2⟩, ⟨5, 0, 8⟩)], 8⟩ ⟨1, 2⟩ 3 ⟨5, 0, 8⟩ ⟨6, 0, 2⟩ (by decide) (by decide)⟩

/-- C2 counterexample: publish version 3 for segment (7,3); a `get_del_vec`
request for version 2 — the cached version 3 is ≥ the requested 2, which the
claim calls a cache hit served without store access — in fact consults the
persistent store and returns the loaded vector rather than the cached one. -/
theorem get_del_vec_hit_direction_cex :
    (setCachedDelVec ⟨[], 0⟩ ⟨7, 3⟩ ⟨3, 0, 4⟩).1 = Status.ok ∧
    alLookup (setCachedDelVec ⟨[], 0⟩ ⟨7, 3⟩ ⟨3, 0, 4⟩).2.cache ⟨7, 3⟩ = some ⟨3, 0, 4⟩ ∧
    ((2 : Int) ≤ 3) ∧
    (getDelVec (fun _ _ => Except.ok (⟨2, 0, 4⟩, 2)) (setCachedDelVec ⟨[], 0⟩ ⟨7, 3⟩ ⟨3, 0, 4⟩).2
        ⟨7, 3⟩ 2).storeAccessed = true ∧
    (getDelVec (fun _ _ => Except.ok (⟨2, 0, 4⟩, 2)) (setCachedDelVec ⟨[], 0⟩ ⟨7, 3⟩ ⟨3, 0, 4⟩).2
        ⟨7, 3⟩ 2).result = some ⟨2, 0, 4⟩ := by
  decide

/-- C2 (amended): `get_del_vec` is a cache hit — returning the cached vector
with no store access — exactly when the cached version is at or below the
requested version V (the code's test is `version >= cached->version()`); in
particular, after `set_cached_del_vec` publishes a vector of version W, any
call with requested version V ≥ W is a cache hit returning that vector, while
a request below the cached version, or on an absent key, consults the
persistent store. -/
theorem get_del_vec_hit_iff_cached_version_le :
    (∀ (store : DelVecStore) (st : DelVecCacheState) (tsid : TabletSegmentId) (version : Int)
      (dv : DelVector),
      alLookup st.cache tsid = some dv → dv.version ≤ version →
      getDelVec store st tsid version = ⟨Status.ok, some dv, st, false⟩) ∧
    (∀ (store : DelVecStore) (st st' : DelVecCacheState) (tsid : TabletSegmentId)
      (dvW : DelVector) (version : Int),
      setCachedDelVec st tsid dvW = (Status.ok, st') → dvW.version ≤ version →
      getDelVec store st' tsid version = ⟨Status.ok, some dvW, st', false⟩) ∧
    (∀ (store : DelVecStore) (st : DelVecCacheState) (tsid : TabletSegmentId) (version : Int),
      (∀ dv, alLookup st.cache tsid = some dv → version < dv.version) →
      (getDelVec store st tsid version).storeAccessed = true) := by
  have haccess : ∀ (store : DelVecStore) (st : DelVecCacheState) (tsid : TabletSegmentId)
      (version : Int), (getDelVecLoad store st tsid version).storeAccessed = true := by
    intro store st tsid version
    cases hst : store tsid version with
    | error e => rw [getDelVecLoad_error hst]
    | ok p =>
        obtain ⟨loaded, latest⟩ := p
        by_cases hll : loaded.version = latest
        · cases hl : alLookup st.cache tsid with
          | none => rw [getDelVecLoad_insert hst hll hl]
          | some old =>
              by_cases hlt : old.version < latest
              · rw [getDelVecLoad_replace hst hll hl hlt]
              · rw [getDelVecLoad_keep hst hll hl hlt]
        · rw [getDelVecLoad_stale hst hll]
  refine ⟨?_, ?_, ?_⟩
  · intro store st tsid version dv hl hle
    exact getDelVec_hit hl hle
  · intro store st st' tsid dvW version hset hle
    exact getDelVec_hit (setCachedDelVec_ok_lookup hset) hle
  · intro store st tsid version hmiss
    cases hl : alLookup st.cache tsid with
    | none =>
        rw [getDelVec_miss_absent hl]
        exact haccess store st tsid version
    | some dv =>
        have hgt := hmiss dv hl
        rw [getDelVec_miss_stale hl (by omega)]
        exact haccess store st tsid version

/-- C2 (amended) witness: with version 3 cached at segment (7,3), a request
for version 5 ≥ 3 is served from the cache without store access, and a request
for version 2 < 3 accesses the store. -/
theorem get_del_vec_hit_iff_cached_version_le_witness :
    (getDelVec (fun _ _ => Except.ok (⟨2, 0, 4⟩, 2)) ⟨[(⟨7, 3⟩, ⟨3, 0, 4⟩)], 4⟩ ⟨7, 3⟩ 5 =
      ⟨Status.ok, some ⟨3, 0, 4⟩, ⟨[(⟨7, 3⟩, ⟨3, 0, 4⟩)], 4⟩, false⟩) ∧
    (getDelVec (fun _ _ => Except.ok (⟨2, 0, 4⟩, 2)) ⟨[(⟨7, 3⟩, ⟨3, 0, 4⟩)], 4⟩ ⟨7, 3⟩
        2).storeAccessed = true :=
  ⟨get_del_vec_hit_iff_cached_version_le.1 (fun _ _ => Except.ok (⟨2, 0, 4⟩, 2))
      ⟨[(⟨7, 3⟩, ⟨3, 0, 4⟩)], 4⟩ ⟨7, 3⟩ 5 ⟨3, 0, 4⟩ (by decide) (by decide),
   get_del_vec_hit_iff_cached_version_le.2.2 (fun _ _ => Except.ok (⟨2, 0, 4⟩, 2))
      ⟨[(⟨7, 3⟩, ⟨3, 0, 4⟩)], 4⟩ ⟨7, 3⟩ 2
      (by intro dv h; cases h; decide)⟩

/-- C3 counterexample: the cache holds version 5 for segment (7,3) while the
store's reported latest is 2; the `get_del_vec` request for version 2 is a
cache miss (2 < 5), loads a vector whose version 2 equals the reported latest
2, yet the loaded vector is not published into the cache — refuting "publishes
into the cache if and only if the loaded version equals the reported
latest". -/
theorem get_del_vec_backfill_cex :
    alLookup (⟨[(⟨7, 3⟩, ⟨5, 0, 8⟩)], 8⟩ : DelVecCacheState).cache ⟨7, 3⟩ = some ⟨5, 0, 8⟩ ∧
    ¬ ((5 : Int) ≤ 2) ∧
    (getDelVec (fun _ _ => Except.ok (⟨2, 0, 4⟩, 2)) ⟨[(⟨7, 3⟩, ⟨5, 0, 8⟩)], 8⟩ ⟨7, 3⟩
        2).storeAccessed = true ∧
    (getDelVec (fun _ _ => Except.ok (⟨2, 0, 4⟩, 2)) ⟨[(⟨7, 3⟩, ⟨5, 0, 8⟩)], 8⟩ ⟨7, 3⟩
        2).result = some ⟨2, 0, 4⟩ ∧
    (getDelVec (fun _ _ => Except.ok (⟨2, 0, 4⟩, 2)) ⟨[(⟨7, 3⟩, ⟨5, 0, 8⟩)], 8⟩ ⟨7, 3⟩
        2).state = ⟨[(⟨7, 3⟩, ⟨5, 0, 8⟩)], 8⟩ := by
  decide

/-- C3 (amended): on a cache miss `get_del_vec` loads from the persistent
store and returns the loaded vector to the caller; the loaded vector is
published into the cache iff its version equals the store's reported latest
version and, when a (newer-versioned) entry is already cached for the key, the
reported latest additionally exceeds that cached version; a loaded vector
whose version differs from the reported latest is never inserted into the
cache. -/
theorem get_del_vec_backfill_char :
    ∀ (store : DelVecStore) (st : DelVecCacheState) (tsid : TabletSegmentId) (version : Int)
      (loaded : DelVector) (latest : Int),
      (∀ dv, alLookup st.cache tsid = some dv → version < dv.version) →
      store tsid version = Except.ok (loaded, latest) →
      (getDelVec store st tsid version).status = Status.ok ∧
      (getDelVec store st tsid version).result = some loaded ∧
      (getDelVec store st tsid version).storeAccessed = true ∧
      (loaded.version ≠ latest → (getDelVec store st tsid version).state = st) ∧
      (loaded.version = latest → alLookup st.cache tsid = none →
        (getDelVec store st tsid version).state.cache = (tsid, loaded) :: st.cache) ∧
      (loaded.version = latest → ∀ old, alLookup st.cache tsid = some old →
        (old.version < latest →
          alLookup (getDelVec store st tsid version).state.cache tsid = some loaded) ∧
        (latest ≤ old.version → (getDelVec store st tsid version).state = st)) := by
  intro store st tsid version loaded latest hmiss hst
  have hload : getDelVec store st tsid version = getDelVecLoad store st tsid version := by
    cases hl : alLookup st.cache tsid with
    | none => exact getDelVec_miss_absent hl
    | some dv =>
        have := hmiss dv hl
        exact getDelVec_miss_stale hl (by omega)
  have hcases : ∀ (r : GetDelVecResult), r = getDelVecLoad store st tsid version →
      r.status = Status.ok ∧ r.result = some loaded ∧ r.storeAccessed = true := by
    intro r hr
    by_cases hll : loaded.version = latest
    · cases hl : alLookup st.cache tsid with
      | none =>
          rw [getDelVecLoad_insert hst hll hl] at hr
          subst hr
          exact ⟨rfl, rfl, rfl⟩
      | some old =>
          by_cases hlt : old.version < latest
          · rw [getDelVecLoad_replace hst hll hl hlt] at hr
            subst hr
            exact ⟨rfl, rfl, rfl⟩
          · rw [getDelVecLoad_keep hst hll hl hlt] at hr
            subst hr
            exact ⟨rfl, rfl, rfl⟩
    · rw [getDelVecLoad_stale hst hll] at hr
      subst hr
      exact ⟨rfl, rfl, rfl⟩
  obtain ⟨h1, h2, h3⟩ := hcases (getDelVecLoad store st tsid version) rfl
  rw [hload]
  refine ⟨h1, h2, h3, ?_, ?_, ?_⟩
  · intro hll
    rw [getDelVecLoad_stale hst hll]
  · intro hll hl
    rw [getDelVecLoad_insert hst hll hl]
  · intro hll old hl
    by_cases hlt : old.version < latest
    · rw [getDelVecLoad_replace hst hll hl hlt]
      exact ⟨fun _ => alLookup_alReplace_self loaded hl, fun hge => absurd hlt (by omega)⟩
    · rw [getDelVecLoad_keep hst hll hl hlt]
      exact ⟨fun hclt => absurd hclt hlt, fun _ => rfl⟩

/-- C3 (amended) witness: on a cold cache, a loaded vector of version 4 equal
to the reported latest 4 is published into the cache. -/
theorem get_del_vec_backfill_char_witness :
    (getDelVec (fun _ _ => Except.ok (⟨4, 0, 2⟩, 4)) ⟨[], 0⟩ ⟨7, 3⟩ 9).status = Status.ok ∧
    (((⟨4, 0, 2⟩ : DelVector).version = 4 → alLookup ([] : List (TabletSegmentId × DelVector)) ⟨7, 3⟩ = none →
      (getDelVec (fun _ _ => Except.ok (⟨4, 0, 2⟩, 4)) ⟨[], 0⟩ ⟨7, 3⟩ 9).state.cache =
        (⟨7, 3⟩, ⟨4, 0, 2⟩) :: ([] : List (TabletSegmentId × DelVector)))) :=
  ⟨(get_del_vec_backfill_char (fun _ _ => Except.ok (⟨4, 0, 2⟩, 4)) ⟨[], 0⟩ ⟨7, 3⟩ 9 ⟨4, 0, 2⟩ 4
      (by intro dv h; cases h) rfl).1,
   (get_del_vec_backfill_char (fun _ _ => Except.ok (⟨4, 0, 2⟩, 4)) ⟨[], 0⟩ ⟨7, 3⟩ 9 ⟨4, 0, 2⟩ 4
      (by intro dv h; cases h) rfl).2.2.2.2.1⟩

/-- C8: `get_latest_del_vec` returns the cached vector on a hit without store
access; on a miss it queries the store with the unbounded requested version
`INT64_MAX`, inserts the loaded vector into the cache (consuming its memory)
and returns it; a store error on the miss path is propagated with the cache
unchanged. -/
theorem get_latest_del_vec_behavior :
    (∀ (store : DelVecStore) (st : DelVecCacheState) (tsid : TabletSegmentId) (dv : DelVector),
      alLookup st.cache tsid = some dv →
      getLatestDelVec store st tsid = ⟨Status.ok, some dv, st, false⟩) ∧
    (∀ (store : DelVecStore) (st : DelVecCacheState) (tsid : TabletSegmentId)
      (loaded : DelVector) (latest : Int),
      alLookup st.cache tsid = none → store tsid int64Max = Except.ok (loaded, latest) →
      getLatestDelVec store st tsid =
        ⟨Status.ok, some loaded,
          ⟨(tsid, loaded) :: st.cache, st.tracker + loaded.memoryUsage⟩, true⟩) ∧
    (∀ (store : DelVecStore) (st : DelVecCacheState) (tsid : TabletSegmentId) (e : Status),
      alLookup st.cache tsid = none → store tsid int64Max = Except.error e →
      getLatestDelVec store st tsid = ⟨e, none, st, true⟩) := by
  refine ⟨?_, ?_, ?_⟩
  · intro store st tsid dv hl
    simp [getLatestDelVec, hl]
  · intro store st tsid loaded latest hl hst
    simp [getLatestDelVec, hl, hst]
  · intro store st tsid e hl hst
    simp [getLatestDelVec, hl, hst]

/-- C8 witness: a miss on a cold cache loads at `INT64_MAX` and caches the
result; a subsequent call is a hit returning the same vector. -/
theorem get_latest_del_vec_behavior_witness :
    (getLatestDelVec (fun _ _ => Except.ok (⟨9, 1, 6⟩, 9)) ⟨[], 0⟩ ⟨7, 3⟩ =
      ⟨Status.ok, some ⟨9, 1, 6⟩, ⟨[(⟨7, 3⟩, ⟨9, 1, 6⟩)], 6⟩, true⟩) ∧
    (getLatestDelVec (fun _ _ => Except.ok (⟨9, 1, 6⟩, 9)) ⟨[(⟨7, 3⟩, ⟨9, 1, 6⟩)], 6⟩ ⟨7, 3⟩ =
      ⟨Status.ok, some ⟨9, 1, 6⟩, ⟨[(⟨7, 3⟩, ⟨9, 1, 6⟩)], 6⟩, false⟩) :=
  ⟨get_latest_del_vec_behavior.2.1 (fun _ _ => Except.ok (⟨9, 1, 6⟩, 9)) ⟨[], 0⟩ ⟨7, 3⟩
      ⟨9, 1, 6⟩ 9 (by decide) rfl,
   get_latest_del_vec_behavior.1 (fun _ _ => Except.ok (⟨9, 1, 6⟩, 9))
      ⟨[(⟨7, 3⟩, ⟨9, 1, 6⟩)], 6⟩ ⟨7, 3⟩ ⟨9, 1, 6⟩ (by decide)⟩

/-! ### Claim theorems: delta-column-group cache -/

/-- C7: when `get_delta_column_group` misses the cache, the full list loaded
from the persistent store — even an empty one — is inserted into the cache, so
a subsequent `get_cached_delta_column_group` is a hit and a subsequent
`get_delta_column_group` for the same key performs no store access. -/
theorem get_dcg_miss_caches_even_empty :
    ∀ (store store2 : DcgStore) (st : DcgCacheState) (tsid : TabletSegmentId)
      (version version2 version3 : Int) (out out2 out3 : DeltaColumnGroupList)
      (newDcgs : DeltaColumnGroupList),
      alLookup st.cache tsid = none →
      store tsid int64Max = Except.ok newDcgs →
      (getDeltaColumnGroup store st tsid version out).storeAccessed = true ∧
      alLookup (getDeltaColumnGroup store st tsid version out).state.cache tsid
        = some newDcgs ∧
      (getCachedDeltaColumnGroup (getDeltaColumnGroup store st tsid version out).state tsid
        version2 out2).1 = true ∧
      (getDeltaColumnGroup store2 (getDeltaColumnGroup store st tsid version out).state tsid
        version3 out3).storeAccessed = false := by
  intro store store2 st tsid version version2 version3 out out2 out3 newDcgs hl hst
  have hres : getDeltaColumnGroup store st tsid version out =
      ⟨Status.ok, searchDeltaColumnGroupsByVersion newDcgs version out,
        ⟨(tsid, newDcgs) :: st.cache,
         st.tracker + deltaColumnGroupListMemoryUsage newDcgs⟩, true⟩ := by
    simp [getDeltaColumnGroup, hl, hst]
  rw [hres]
  have hl2 : alLookup ((tsid, newDcgs) :: st.cache) tsid = some newDcgs := by
    simp [alLookup]
  exact ⟨rfl, hl2, by simp [getCachedDeltaColumnGroup, hl2],
    by simp [getDeltaColumnGroup, hl2]⟩

/-- C7 witness: a miss whose store list is empty still caches the empty list,
and the two follow-up reads hit without store access. -/
theorem get_dcg_miss_caches_even_empty_witness :
    (getDeltaColumnGroup (fun _ _ => Except.ok []) ⟨[], 0⟩ ⟨7, 3⟩ 4 []).storeAccessed = true ∧
    alLookup (getDeltaColumnGroup (fun _ _ => Except.ok []) ⟨[], 0⟩ ⟨7, 3⟩ 4 []).state.cache
      ⟨7, 3⟩ = some [] ∧
    (getCachedDeltaColumnGroup
      (getDeltaColumnGroup (fun _ _ => Except.ok []) ⟨[], 0⟩ ⟨7, 3⟩ 4 []).state ⟨7, 3⟩ 4 []).1
      = true ∧
    (getDeltaColumnGroup (fun _ _ => Except.error (Status.ioError ("unreachable")))
      (getDeltaColumnGroup (fun _ _ => Except.ok []) ⟨[], 0⟩ ⟨7, 3⟩ 4 []).state ⟨7, 3⟩ 4
      []).storeAccessed = false :=
  get_dcg_miss_caches_even_empty (fun _ _ => Except.ok [])
    (fun _ _ => Except.error (Status.ioError ("unreachable"))) ⟨[], 0⟩ ⟨7, 3⟩ 4 4 4 [] [] [] []
    (by decide) rfl

/-- C10: `get_cached_delta_column_group` is read-only — it takes no store
handle and returns no modified state; on a hit it returns `true` with the
deltas of version ≤ V appended to the output, on a miss it returns `false`
with the output untouched. -/
theorem get_cached_dcg_read_only :
    ∀ (st : DcgCacheState) (tsid : TabletSegmentId) (version : Int)
      (out cached : DeltaColumnGroupList),
      (alLookup st.cache tsid = some cached →
        getCachedDeltaColumnGroup st tsid version out =
          (true, out ++ cached.filter (fun d => d.version ≤ version))) ∧
      (alLookup st.cache tsid = none →
        getCachedDeltaColumnGroup st tsid version out = (false, out)) := by
  intro st tsid version out cached
  constructor
  · intro hl
    simp [getCachedDeltaColumnGroup, hl, searchDeltaColumnGroupsByVersion]
  · intro hl
    simp [getCachedDeltaColumnGroup, hl]

/-- C10 witness: a hit appends exactly the deltas with version ≤ 5; a miss on
another key returns false with the output untouched. -/
theorem get_cached_dcg_read_only_witness :
    (getCachedDeltaColumnGroup ⟨[(⟨7, 3⟩, [⟨6, 2⟩, ⟨4, 1⟩, ⟨2, 3⟩])], 6⟩ ⟨7, 3⟩ 5 [] =
      (true, [⟨4, 1⟩, ⟨2, 3⟩])) ∧
    (getCachedDeltaColumnGroup ⟨[(⟨7, 3⟩, [⟨6, 2⟩, ⟨4, 1⟩, ⟨2, 3⟩])], 6⟩ ⟨7, 4⟩ 5 [⟨1, 1⟩] =
      (false, [⟨1, 1⟩])) :=
  ⟨(get_cached_dcg_read_only ⟨[(⟨7, 3⟩, [⟨6, 2⟩, ⟨4, 1⟩, ⟨2, 3⟩])], 6⟩ ⟨7, 3⟩ 5 []
      [⟨6, 2⟩, ⟨4, 1⟩, ⟨2, 3⟩]).1 (by decide),
   (get_cached_dcg_read_only ⟨[(⟨7, 3⟩, [⟨6, 2⟩, ⟨4, 1⟩, ⟨2, 3⟩])], 6⟩ ⟨7, 4⟩ 5 [⟨1, 1⟩]
      []).2 (by decide)⟩

/-! ### The bounded GC sweep (claim C6) -/

/-- The number of cached entries belonging to one tablet — the number of
segments the sweep must visit for a full (untimed-out) pass. -/
def tabletEntryCount (cache : List (TabletSegmentId × DeltaColumnGroupList))
    (tabletId : Nat) : Nat :=
  cache.countP (fun p => decide (p.1.tabletId = tabletId))

/-- Stated from the spec's words: the number of cached deltas of the tablet
whose effective version lies below the minimum readable version — the count a
full sweep is specified to remove and return. -/
def dcgStaleEntryCount (cache : List (TabletSegmentId × DeltaColumnGroupList))
    (tabletId : Nat) (minV : Int) : Nat :=
  (cache.map (fun p => if p.1.tabletId = tabletId
      then (p.2.filter (fun d => d.version < minV)).length else 0)).sum

theorem clearDcgGo_nil (tid : Nat) (minV : Int) :
    ∀ budget, clearDcgGo tid minV budget [] = ([], [])
  | 0 => rfl
  | _ + 1 => rfl

theorem clearDcgGo_cons_match_zero {k : TabletSegmentId} {tid : Nat} (minV : Int)
    (l : DeltaColumnGroupList) (rest : List (TabletSegmentId × DeltaColumnGroupList))
    (h : k.tabletId = tid) :
    clearDcgGo tid minV 0 ((k, l) :: rest) = ((k, l) :: rest, []) := by
  simp [clearDcgGo, h]

theorem clearDcgGo_cons_match_succ {k : TabletSegmentId} {tid : Nat} (minV : Int)
    (b : Nat) (l : DeltaColumnGroupList) (rest : List (TabletSegmentId × DeltaColumnGroupList))
    (h : k.tabletId = tid) :
    clearDcgGo tid minV (b + 1) ((k, l) :: rest) =
      ((k, (garbageCollection l k minV).1) :: (clearDcgGo tid minV b rest).1,
       (garbageCollection l k minV).2 ++ (clearDcgGo tid minV b rest).2) := by
  simp [clearDcgGo, h]

theorem clearDcgGo_cons_nomatch {k : TabletSegmentId} {tid : Nat} (minV : Int)
    (budget : Nat) (l : DeltaColumnGroupList)
    (rest : List (TabletSegmentId × DeltaColumnGroupList)) (h : ¬ k.tabletId = tid) :
    clearDcgGo tid minV budget ((k, l) :: rest) =
      ((k, l) :: (clearDcgGo tid minV budget rest).1,
       (clearDcgGo tid minV budget rest).2) := by
  simp [clearDcgGo, h]

theorem clearDcgGo_removed (tid : Nat) (minV : Int) :
    ∀ (l : List (TabletSegmentId × DeltaColumnGroupList)) (budget : Nat),
      ∀ p ∈ (clearDcgGo tid minV budget l).2, p.1.tabletId = tid ∧ p.2 < minV := by
  intro l
  induction l with
  | nil =>
      intro budget p hp
      rw [clearDcgGo_nil] at hp
      cases hp
  | cons hd rest ih =>
      obtain ⟨k, dl⟩ := hd
      intro budget p hp
      by_cases hk : k.tabletId = tid
      · cases budget with
        | zero =>
            rw [clearDcgGo_cons_match_zero minV dl rest hk] at hp
            cases hp
        | succ b =>
            rw [clearDcgGo_cons_match_succ minV b dl rest hk] at hp
            simp only [List.mem_append] at hp
            cases hp with
            | inl hg =>
                simp only [garbageCollection, List.mem_map, List.mem_filter] at hg
                obtain ⟨d, ⟨_, hdv⟩, hpd⟩ := hg
                subst hpd
                exact ⟨hk, by simpa using hdv⟩
            | inr hr => exact ih b p hr
      · rw [clearDcgGo_cons_nomatch minV budget dl rest hk] at hp
        exact ih budget p hp

theorem clearDcgGo_other (tid : Nat) (minV : Int) :
    ∀ (l : List (TabletSegmentId × DeltaColumnGroupList)) (budget : Nat)
      (key : TabletSegmentId), key.tabletId ≠ tid →
      alLookup (clearDcgGo tid minV budget l).1 key = alLookup l key := by
  intro l
  induction l with
  | nil =>
      intro budget key _
      rw [clearDcgGo_nil]
  | cons hd rest ih =>
      obtain ⟨k, dl⟩ := hd
      intro budget key hkey
      by_cases hk : k.tabletId = tid
      · have hkk : ¬ k = key := by
          intro he
          subst he
          exact hkey hk
        cases budget with
        | zero => rw [clearDcgGo_cons_match_zero minV dl rest hk]
        | succ b =>
            rw [clearDcgGo_cons_match_succ minV b dl rest hk]
            simp only [alLookup, hkk, if_neg hkk]
            exact ih b key hkey
      · rw [clearDcgGo_cons_nomatch minV budget dl rest hk]
        by_cases hkk : k = key
        · simp [alLookup, hkk]
        · simp only [alLookup, if_neg hkk]
          exact ih budget key hkey

theorem clearDcgGo_full_kept (tid : Nat) (minV : Int) :
    ∀ (l : List (TabletSegmentId × DeltaColumnGroupList)) (budget : Nat),
      tabletEntryCount l tid ≤ budget →
      ∀ p ∈ (clearDcgGo tid minV budget l).1, p.1.tabletId = tid →
        ∀ d ∈ p.2, minV ≤ d.version := by
  intro l
  induction l with
  | nil =>
      intro budget _ p hp
      rw [clearDcgGo_nil] at hp
      cases hp
  | cons hd rest ih =>
      obtain ⟨k, dl⟩ := hd
      intro budget hbudget p hp hptid
      by_cases hk : k.tabletId = tid
      · have hcount : tabletEntryCount ((k, dl) :: rest) tid =
            tabletEntryCount rest tid + 1 := by
          simp [tabletEntryCount, List.countP_cons, hk]
        cases budget with
        | zero => omega
        | succ b =>
            rw [clearDcgGo_cons_match_succ minV b dl rest hk] at hp
            cases hp with
            | head =>
                intro d hd
                simp only [garbageCollection, List.mem_filter] at hd
                exact of_decide_eq_true hd.2
            | tail _ htail =>
                exact ih b (by omega) p htail hptid
      · have hcount : tabletEntryCount ((k, dl) :: rest) tid =
            tabletEntryCount rest tid := by
          simp [tabletEntryCount, List.countP_cons, hk]
        rw [clearDcgGo_cons_nomatch minV budget dl rest hk] at hp
        cases hp with
        | head => exact absurd hptid hk
        | tail _ htail => exact ih budget (by omega) p htail hptid

theorem clearDcgGo_count (tid : Nat) (minV : Int) :
    ∀ (l : List (TabletSegmentId × DeltaColumnGroupList)) (budget : Nat),
      tabletEntryCount l tid ≤ budget →
      (clearDcgGo tid minV budget l).2.length = dcgStaleEntryCount l tid minV := by
  intro l
  induction l with
  | nil =>
      intro budget _
      rw [clearDcgGo_nil]
      rfl
  | cons hd rest ih =>
      obtain ⟨k, dl⟩ := hd
      intro budget hbudget
      by_cases hk : k.tabletId = tid
      · have hcount : tabletEntryCount ((k, dl) :: rest) tid =
            tabletEntryCount rest tid + 1 := by
          simp [tabletEntryCount, List.countP_cons, hk]
        cases budget with
        | zero => omega
        | succ b =>
            rw [clearDcgGo_cons_match_succ minV b dl rest hk]
            simp only [List.length_append, dcgStaleEntryCount, List.map_cons, List.sum_cons,
              garbageCollection, List.length_map, hk, if_pos hk]
            rw [ih b (by omega)]
            simp [dcgStaleEntryCount]
      · have hcount : tabletEntryCount ((k, dl) :: rest) tid =
            tabletEntryCount rest tid := by
          simp [tabletEntryCount, List.countP_cons, hk]
        rw [clearDcgGo_cons_nomatch minV budget dl rest hk]
        simp only [dcgStaleEntryCount, List.map_cons, List.sum_cons, if_neg hk]
        rw [ih budget (by omega)]
        simp [dcgStaleEntryCount]

/-- C6: the bounded GC sweep collects for removal only deltas of the given
tablet with effective version below `min_readable_version`; entries of other
tablets are untouched; on a full sweep (the time budget covers every entry of
the tablet) every delta remaining cached for the tablet's segments has
effective version at or above `min_readable_version`; and when the batched
store write succeeds the call returns the number of deltas removed. -/
theorem clear_dcg_before_version_correct :
    ∀ (budget : Nat) (st : DcgCacheState) (tabletId : Nat) (minV : Int) (wok : Bool),
      (∀ p ∈ (clearDcgGo tabletId minV budget st.cache).2,
        p.1.tabletId = tabletId ∧ p.2 < minV) ∧
      (∀ key : TabletSegmentId, key.tabletId ≠ tabletId →
        alLookup (clearDeltaColumnGroupBeforeVersion budget st tabletId minV wok).2.cache key
          = alLookup st.cache key) ∧
      (tabletEntryCount st.cache tabletId ≤ budget →
        ∀ p ∈ (clearDeltaColumnGroupBeforeVersion budget st tabletId minV wok).2.cache,
          p.1.tabletId = tabletId → ∀ d ∈ p.2, minV ≤ d.version) ∧
      (tabletEntryCount st.cache tabletId ≤ budget → wok = true →
        (clearDeltaColumnGroupBeforeVersion budget st tabletId minV wok).1 =
          Except.ok (dcgStaleEntryCount st.cache tabletId minV)) := by
  intro budget st tabletId minV wok
  refine ⟨clearDcgGo_removed tabletId minV st.cache budget, ?_, ?_, ?_⟩
  · intro key hkey
    have hcache : (clearDeltaColumnGroupBeforeVersion budget st tabletId minV wok).2.cache =
        (clearDcgGo tabletId minV budget st.cache).1 := by
      unfold clearDeltaColumnGroupBeforeVersion
      cases wok <;> rfl
    rw [hcache]
    exact clearDcgGo_other tabletId minV st.cache budget key hkey
  · intro hbudget p hp hptid
    have hcache : (clearDeltaColumnGroupBeforeVersion budget st tabletId minV wok).2.cache =
        (clearDcgGo tabletId minV budget st.cache).1 := by
      unfold clearDeltaColumnGroupBeforeVersion
      cases wok <;> rfl
    rw [hcache] at hp
    exact clearDcgGo_full_kept tabletId minV st.cache budget hbudget p hp hptid
  · intro hbudget hwok
    subst hwok
    have : (clearDeltaColumnGroupBeforeVersion budget st tabletId minV true).1 =
        Except.ok (clearDcgGo tabletId minV budget st.cache).2.length := rfl
    rw [this, clearDcgGo_count tabletId minV st.cache budget hbudget]

/-- C6 witness: tablet 7 holds deltas of versions 2, 4 and 6 across two
segments plus one foreign-tablet entry; a full sweep with minimum readable
version 5 removes the two stale deltas (returning 2), keeps version 6, and
leaves the foreign tablet's entry intact. -/
theorem clear_dcg_before_version_correct_witness :
    (tabletEntryCount [(⟨7, 0⟩, [⟨6, 2⟩, ⟨2, 3⟩]), (⟨7, 1⟩, [⟨4, 1⟩]), (⟨8, 0⟩, [⟨1, 5⟩])] 7 ≤ 2) ∧
    (clearDeltaColumnGroupBeforeVersion 2
      ⟨[(⟨7, 0⟩, [⟨6, 2⟩, ⟨2, 3⟩]), (⟨7, 1⟩, [⟨4, 1⟩]), (⟨8, 0⟩, [⟨1, 5⟩])], 11⟩ 7 5 true).1 =
      Except.ok (dcgStaleEntryCount
        [(⟨7, 0⟩, [⟨6, 2⟩, ⟨2, 3⟩]), (⟨7, 1⟩, [⟨4, 1⟩]), (⟨8, 0⟩, [⟨1, 5⟩])] 7 5) ∧
    alLookup (clearDeltaColumnGroupBeforeVersion 2
      ⟨[(⟨7, 0⟩, [⟨6, 2⟩, ⟨2, 3⟩]), (⟨7, 1⟩, [⟨4, 1⟩]), (⟨8, 0⟩, [⟨1, 5⟩])], 11⟩ 7 5
      true).2.cache ⟨8, 0⟩ =
      alLookup ([(⟨7, 0⟩, [⟨6, 2⟩, ⟨2, 3⟩]), (⟨7, 1⟩, [⟨4, 1⟩]), (⟨8, 0⟩, [⟨1, 5⟩])] :
        List (TabletSegmentId × DeltaColumnGroupList)) ⟨8, 0⟩ :=
  ⟨by decide,
   (clear_dcg_before_version_correct 2
      ⟨[(⟨7, 0⟩, [⟨6, 2⟩, ⟨2, 3⟩]), (⟨7, 1⟩, [⟨4, 1⟩]), (⟨8, 0⟩, [⟨1, 5⟩])], 11⟩ 7 5
      true).2.2.2 (by decide) rfl,
   (clear_dcg_before_version_correct 2
      ⟨[(⟨7, 0⟩, [⟨6, 2⟩, ⟨2, 3⟩]), (⟨7, 1⟩, [⟨4, 1⟩]), (⟨8, 0⟩, [⟨1, 5⟩])], 11⟩ 7 5
      true).2.1 ⟨8, 0⟩ (by decide)⟩

/-! ### Memory-tracker consistency (claim C9) -/

/-- Tracker consistency for the delete-vector cache: the consumption recorded
by `_del_vec_cache_mem_tracker` equals the total memory usage of the cached
vectors. -/
def dvInv (st : DelVecCacheState) : Prop :=
  st.tracker = alWeight DelVector.memoryUsage st.cache

/-- Tracker consistency for the delta-column-group cache. -/
def dcgInv (st : DcgCacheState) : Prop :=
  st.tracker = alWeight deltaColumnGroupListMemoryUsage st.cache

instance (st : DelVecCacheState) : Decidable (dvInv st) :=
  inferInstanceAs (Decidable (st.tracker = alWeight DelVector.memoryUsage st.cache))

instance (st : DcgCacheState) : Decidable (dcgInv st) :=
  inferInstanceAs (Decidable (st.tracker = alWeight deltaColumnGroupListMemoryUsage st.cache))

theorem dvInv_setCachedDelVec (st : DelVecCacheState) (tsid : TabletSegmentId)
    (dv : DelVector) (h : dvInv st) : dvInv (setCachedDelVec st tsid dv).2 := by
  cases hl : alLookup st.cache tsid with
  | none =>
      rw [setCachedDelVec_insert hl]
      unfold dvInv at h ⊢
      simp [alWeight]
      omega
  | some old =>
      by_cases hle : dv.version ≤ old.version
      · rw [setCachedDelVec_regress hl hle]
        exact h
      · rw [setCachedDelVec_replace hl hle]
        unfold dvInv at h ⊢
        have hw := alWeight_lookup_le DelVector.memoryUsage hl
        have hrep := alWeight_alReplace DelVector.memoryUsage dv hl
        simp only []
        omega

theorem dvInv_getDelVecLoad (store : DelVecStore) (st : DelVecCacheState)
    (tsid : TabletSegmentId) (version : Int) (h : dvInv st) :
    dvInv (getDelVecLoad store st tsid version).state := by
  cases hst : store tsid version with
  | error e =>
      rw [getDelVecLoad_error hst]
      exact h
  | ok p =>
      obtain ⟨loaded, latest⟩ := p
      by_cases hll : loaded.version = latest
      · cases hl : alLookup st.cache tsid with
        | none =>
            rw [getDelVecLoad_insert hst hll hl]
            unfold dvInv at h ⊢
            simp [alWeight]
            omega
        | some old =>
            by_cases hlt : old.version < latest
            · rw [getDelVecLoad_replace hst hll hl hlt]
              unfold dvInv at h ⊢
              have hw := alWeight_lookup_le DelVector.memoryUsage hl
              have hrep := alWeight_alReplace DelVector.memoryUsage loaded hl
              simp only []
              omega
            · rw [getDelVecLoad_keep hst hll hl hlt]
              exact h
      · rw [getDelVecLoad_stale hst hll]
        exact h

theorem dvInv_getDelVec (store : DelVecStore) (st : DelVecCacheState)
    (tsid : TabletSegmentId) (version : Int) (h : dvInv st) :
    dvInv (getDelVec store st tsid version).state := by
  cases hl : alLookup st.cache tsid with
  | some dv =>
      by_cases hle : dv.version ≤ version
      · rw [getDelVec_hit hl hle]
        exact h
      · rw [getDelVec_miss_stale hl hle]
        exact dvInv_getDelVecLoad store st tsid version h
  | none =>
      rw [getDelVec_miss_absent hl]
      exact dvInv_getDelVecLoad store st tsid version h

theorem dvInv_getLatestDelVec (store : DelVecStore) (st : DelVecCacheState)
    (tsid : TabletSegmentId) (h : dvInv st) :
    dvInv (getLatestDelVec store st tsid).state := by
  cases hl : alLookup st.cache tsid with
  | some dv =>
      have : getLatestDelVec store st tsid = ⟨Status.ok, some dv, st, false⟩ := by
        simp [getLatestDelVec, hl]
      rw [this]
      exact h
  | none =>
      cases hst : store tsid int64Max with
      | error e =>
          have : getLatestDelVec store st tsid = ⟨e, none, st, true⟩ := by
            simp [getLatestDelVec, hl, hst]
          rw [this]
          exact h
      | ok p =>
          obtain ⟨loaded, latest⟩ := p
          have : getLatestDelVec store st tsid =
              ⟨Status.ok, some loaded,
                ⟨(tsid, loaded) :: st.cache, st.tracker + loaded.memoryUsage⟩, true⟩ := by
            simp [getLatestDelVec, hl, hst]
          rw [this]
          unfold dvInv at h ⊢
          simp [alWeight]
          omega

theorem dvInv_clearCachedDelVecOne (st : DelVecCacheState) (tsid : TabletSegmentId)
    (h : dvInv st) : dvInv (clearCachedDelVecOne st tsid) := by
  unfold clearCachedDelVecOne
  cases hl : alLookup st.cache tsid with
  | none => exact h
  | some dv =>
      unfold dvInv at h ⊢
      have hw := alWeight_lookup_le DelVector.memoryUsage hl
      have her := alWeight_alErase DelVector.memoryUsage hl
      simp only []
      omega

theorem dvInv_clearCachedDelVec (st : DelVecCacheState) (tsids : List TabletSegmentId)
    (h : dvInv st) : dvInv (clearCachedDelVec st tsids) := by
  induction tsids generalizing st with
  | nil => exact h
  | cons t rest ih =>
      exact ih (clearCachedDelVecOne st t) (dvInv_clearCachedDelVecOne st t h)

theorem alWeight_filter_split {K V : Type} (w : V → Nat) (p : K × V → Bool) :
    ∀ l : List (K × V),
      alWeight w l = alWeight w (l.filter p) + alWeight w (l.filter (fun q => ! p q)) := by
  intro l
  induction l with
  | nil => rfl
  | cons q rest ih =>
      obtain ⟨k, v⟩ := q
      by_cases hp : p (k, v)
      · simp [List.filter, hp, alWeight]
        omega
      · simp [List.filter, hp, alWeight]
        omega

theorem clearDelVecByTabletGo_fst (tid : Nat) :
    ∀ (l : List (TabletSegmentId × DelVector)) (t : Nat),
      (clearDelVecByTabletGo tid l t).1 =
        l.filter (fun q => ! decide (q.1.tabletId = tid)) := by
  intro l
  induction l with
  | nil => intro t; rfl
  | cons q rest ih =>
      obtain ⟨k, v⟩ := q
      intro t
      by_cases hk : k.tabletId = tid
      · simp [clearDelVecByTabletGo, hk, List.filter, ih]
      · simp [clearDelVecByTabletGo, hk, List.filter, ih]

theorem clearDelVecByTabletGo_snd (tid : Nat) :
    ∀ (l : List (TabletSegmentId × DelVector)) (t : Nat),
      (clearDelVecByTabletGo tid l t).2 =
        t - alWeight DelVector.memoryUsage (l.filter (fun q => decide (q.1.tabletId = tid))) := by
  intro l
  induction l with
  | nil => intro t; rfl
  | cons q rest ih =>
      obtain ⟨k, v⟩ := q
      intro t
      by_cases hk : k.tabletId = tid
      · simp [clearDelVecByTabletGo, hk, List.filter, ih, alWeight]
        omega
      · simp [clearDelVecByTabletGo, hk, List.filter, ih, alWeight]

theorem dvInv_clearCachedDelVecByTabletId (st : DelVecCacheState) (tid : Nat)
    (h : dvInv st) : dvInv (clearCachedDelVecByTabletId st tid) := by
  unfold dvInv at h ⊢
  unfold clearCachedDelVecByTabletId
  simp only [clearDelVecByTabletGo_fst, clearDelVecByTabletGo_snd]
  have hsplit := alWeight_filter_split DelVector.memoryUsage
    (fun q => decide (q.1.tabletId = tid)) st.cache
  omega

theorem dcgInv_getDeltaColumnGroup (store : DcgStore) (st : DcgCacheState)
    (tsid : TabletSegmentId) (version : Int) (out : DeltaColumnGroupList) (h : dcgInv st) :
    dcgInv (getDeltaColumnGroup store st tsid version out).state := by
  cases hl : alLookup st.cache tsid with
  | some cached =>
      have : (getDeltaColumnGroup store st tsid version out).state = st := by
        simp [getDeltaColumnGroup, hl]
      rw [this]
      exact h
  | none =>
      cases hst : store tsid int64Max with
      | error e =>
          have : (getDeltaColumnGroup store st tsid version out).state = st := by
            simp [getDeltaColumnGroup, hl, hst]
          rw [this]
          exact h
      | ok newDcgs =>
          have : (getDeltaColumnGroup store st tsid version out).state =
              ⟨(tsid, newDcgs) :: st.cache,
               st.tracker + deltaColumnGroupListMemoryUsage newDcgs⟩ := by
            simp [getDeltaColumnGroup, hl, hst]
          rw [this]
          unfold dcgInv at h ⊢
          simp [alWeight]
          omega

theorem dcgInv_setCachedDeltaColumnGroup (store : DcgStore) (st : DcgCacheState)
    (tsid : TabletSegmentId) (dcg : DeltaColumnGroup) (h : dcgInv st) :
    dcgInv (setCachedDeltaColumnGroup store st tsid dcg).2 := by
  cases hl : alLookup st.cache tsid with
  | some cached =>
      have : (setCachedDeltaColumnGroup store st tsid dcg).2 =
          ⟨alReplace st.cache tsid (dcg :: cached), st.tracker + dcg.memoryUsage⟩ := by
        simp [setCachedDeltaColumnGroup, hl]
      rw [this]
      unfold dcgInv at h ⊢
      have hw := alWeight_lookup_le deltaColumnGroupListMemoryUsage hl
      have hrep := alWeight_alReplace deltaColumnGroupListMemoryUsage (dcg :: cached) hl
      simp only [deltaColumnGroupListMemoryUsage] at hrep ⊢
      omega
  | none =>
      cases hst : store tsid int64Max with
      | error e =>
          have : (setCachedDeltaColumnGroup store st tsid dcg).2 = st := by
            simp [setCachedDeltaColumnGroup, hl, hst]
          rw [this]
          exact h
      | ok newDcgs =>
          have : (setCachedDeltaColumnGroup store st tsid dcg).2 =
              ⟨(tsid, newDcgs) :: st.cache,
               st.tracker + deltaColumnGroupListMemoryUsage newDcgs⟩ := by
            simp [setCachedDeltaColumnGroup, hl, hst]
          rw [this]
          unfold dcgInv at h ⊢
          simp [alWeight]
          omega

theorem dcgInv_setCachedEmptyDeltaColumnGroup (store : DcgStore) (st : DcgCacheState)
    (tsid : TabletSegmentId) (h : dcgInv st) :
    dcgInv (setCachedEmptyDeltaColumnGroup store st tsid).2 := by
  cases hl : alLookup st.cache tsid with
  | some cached =>
      have : (setCachedEmptyDeltaColumnGroup store st tsid).2 = st := by
        simp [setCachedEmptyDeltaColumnGroup, hl]
      rw [this]
      exact h
  | none =>
      cases hst : store tsid int64Max with
      | error e =>
          have : (setCachedEmptyDeltaColumnGroup store st tsid).2 = st := by
            simp [setCachedEmptyDeltaColumnGroup, hl, hst]
          rw [this]
          exact h
      | ok newDcgs =>
          cases newDcgs with
          | nil =>
              have : (setCachedEmptyDeltaColumnGroup store st tsid).2 =
                  ⟨(tsid, []) :: st.cache, st.tracker⟩ := by
                simp [setCachedEmptyDeltaColumnGroup, hl, hst]
              rw [this]
              unfold dcgInv at h ⊢
              simp [alWeight, deltaColumnGroupListMemoryUsage]
              omega
          | cons d rest =>
              have : (setCachedEmptyDeltaColumnGroup store st tsid).2 = st := by
                simp [setCachedEmptyDeltaColumnGroup, hl, hst]
              rw [this]
              exact h

theorem dcgInv_clearCachedDcgOne (st : DcgCacheState) (tsid : TabletSegmentId)
    (h : dcgInv st) : dcgInv (clearCachedDcgOne st tsid) := by
  unfold clearCachedDcgOne
  cases hl : alLookup st.cache tsid with
  | none => exact h
  | some l =>
      unfold dcgInv at h ⊢
      have hw := alWeight_lookup_le deltaColumnGroupListMemoryUsage hl
      have her := alWeight_alErase deltaColumnGroupListMemoryUsage hl
      simp only []
      omega

theorem dcgInv_clearCachedDcg (st : DcgCacheState) (tsids : List TabletSegmentId)
    (h : dcgInv st) : dcgInv (clearCachedDcg st tsids) := by
  induction tsids generalizing st with
  | nil => exact h
  | cons t rest ih =>
      exact ih (clearCachedDcgOne st t) (dcgInv_clearCachedDcgOne st t h)

theorem clearDcgByTabletGo_fst (tid : Nat) :
    ∀ (l : List (TabletSegmentId × DeltaColumnGroupList)) (t : Nat),
      (clearDcgByTabletGo tid l t).1 =
        l.filter (fun q => ! decide (q.1.tabletId = tid)) := by
  intro l
  induction l with
  | nil => intro t; rfl
  | cons q rest ih =>
      obtain ⟨k, v⟩ := q
      intro t
      by_cases hk : k.tabletId = tid
      · simp [clearDcgByTabletGo, hk, List.filter, ih]
      · simp [clearDcgByTabletGo, hk, List.filter, ih]

theorem clearDcgByTabletGo_snd (tid : Nat) :
    ∀ (l : List (TabletSegmentId × DeltaColumnGroupList)) (t : Nat),
      (clearDcgByTabletGo tid l t).2 =
        t - alWeight deltaColumnGroupListMemoryUsage
          (l.filter (fun q => decide (q.1.tabletId = tid))) := by
  intro l
  induction l with
  | nil => intro t; rfl
  | cons q rest ih =>
      obtain ⟨k, v⟩ := q
      intro t
      by_cases hk : k.tabletId = tid
      · simp [clearDcgByTabletGo, hk, List.filter, ih, alWeight]
        omega
      · simp [clearDcgByTabletGo, hk, List.filter, ih, alWeight]

theorem dcgInv_clearCachedDcgByTabletId (st : DcgCacheState) (tid : Nat)
    (h : dcgInv st) : dcgInv (clearCachedDcgByTabletId st tid) := by
  unfold dcgInv at h ⊢
  unfold clearCachedDcgByTabletId
  simp only [clearDcgByTabletGo_fst, clearDcgByTabletGo_snd]
  have hsplit := alWeight_filter_split deltaColumnGroupListMemoryUsage
    (fun q => decide (q.1.tabletId = tid)) st.cache
  omega

/-- C9 counterexample: with a consistent tracker (10 bytes tracked, one cached
delta of 10 bytes), `clear_delta_column_group_before_version` removes the stale
delta from the cached list but performs no tracker release, leaving the
tracker at 10 while the container holds 0 bytes — so tracker consumption is
not consistent with container contents once the lock is released. -/
theorem tracker_consistency_cex :
    dcgInv ⟨[(⟨7, 3⟩, [⟨1, 10⟩])], 10⟩ ∧
    ¬ dcgInv (clearDeltaColumnGroupBeforeVersion 1 ⟨[(⟨7, 3⟩, [⟨1, 10⟩])], 10⟩ 7 5 true).2 := by
  constructor
  · decide
  · decide

/-- C9 (amended): for both keyed cache containers the tracker equals the total
memory of the cached values and every translated operation that inserts,
replaces, or removes a cached value preserves this equality under the
container's lock — with the single exception of
`clear_delta_column_group_before_version`, whose sweep removes stale deltas
from cached lists without releasing their tracked memory (see the
counterexample). -/
theorem tracker_consistency_preserved :
    ∀ (store : DelVecStore) (dstore : DcgStore) (st : DelVecCacheState) (dst : DcgCacheState)
      (tsid : TabletSegmentId) (version : Int) (dv : DelVector) (dcg : DeltaColumnGroup)
      (out : DeltaColumnGroupList) (tsids : List TabletSegmentId) (tid : Nat),
      (dvInv st →
        dvInv (setCachedDelVec st tsid dv).2 ∧
        dvInv (getDelVec store st tsid version).state ∧
        dvInv (getLatestDelVec store st tsid).state ∧
        dvInv (clearCachedDelVec st tsids) ∧
        dvInv (clearCachedDelVecByTabletId st tid)) ∧
      (dcgInv dst →
        dcgInv (getDeltaColumnGroup dstore dst tsid version out).state ∧
        dcgInv (setCachedDeltaColumnGroup dstore dst tsid dcg).2 ∧
        dcgInv (setCachedEmptyDeltaColumnGroup dstore dst tsid).2 ∧
        dcgInv (clearCachedDcg dst tsids) ∧
        dcgInv (clearCachedDcgByTabletId dst tid)) := by
  intro store dstore st dst tsid version dv dcg out tsids tid
  constructor
  · intro h
    exact ⟨dvInv_setCachedDelVec st tsid dv h,
      dvInv_getDelVec store st tsid version h,
      dvInv_getLatestDelVec store st tsid h,
      dvInv_clearCachedDelVec st tsids h,
      dvInv_clearCachedDelVecByTabletId st tid h⟩
  · intro h
    exact ⟨dcgInv_getDeltaColumnGroup dstore dst tsid version out h,
      dcgInv_setCachedDeltaColumnGroup dstore dst tsid dcg h,
      dcgInv_setCachedEmptyDeltaColumnGroup dstore dst tsid h,
      dcgInv_clearCachedDcg dst tsids h,
      dcgInv_clearCachedDcgByTabletId dst tid h⟩

/-- C9 (amended) witness: at a concrete consistent state, publishing a new
delete vector and prepending a new delta both preserve tracker consistency. -/
theorem tracker_consistency_preserved_witness :
    dvInv (⟨[(⟨1, 2⟩, ⟨5, 0, 8⟩)], 8⟩ : DelVecCacheState) ∧
    dcgInv (⟨[(⟨1, 2⟩, [⟨3, 4⟩])], 4⟩ : DcgCacheState) ∧
    dvInv (setCachedDelVec ⟨[(⟨1, 2⟩, ⟨5, 0, 8⟩)], 8⟩ ⟨1, 2⟩ ⟨6, 0, 3⟩).2 ∧
    dcgInv (setCachedDeltaColumnGroup (fun _ _ => Except.ok []) ⟨[(⟨1, 2⟩, [⟨3, 4⟩])], 4⟩
      ⟨1, 2⟩ ⟨7, 6⟩).2 :=
  ⟨by decide, by decide,
   ((tracker_consistency_preserved (fun _ _ => Except.ok (⟨0, 0, 0⟩, 0))
      (fun _ _ => Except.ok []) ⟨[(⟨1, 2⟩, ⟨5, 0, 8⟩)], 8⟩ ⟨[(⟨1, 2⟩, [⟨3, 4⟩])], 4⟩
      ⟨1, 2⟩ 0 ⟨6, 0, 3⟩ ⟨7, 6⟩ [] [] 0).1 (by decide)).1,
   ((tracker_consistency_preserved (fun _ _ => Except.ok (⟨0, 0, 0⟩, 0))
      (fun _ _ => Except.ok []) ⟨[(⟨1, 2⟩, ⟨5, 0, 8⟩)], 8⟩ ⟨[(⟨1, 2⟩, [⟨3, 4⟩])], 4⟩
      ⟨1, 2⟩ 0 ⟨6, 0, 3⟩ ⟨7, 6⟩ [] [] 0).2 (by decide)).2.1⟩

/-! ### Key-multiplicity lemmas for the state caches (claim C4)

The C++ caches are maps, so a key occurs at most once; the association-list
embedding carries that as an explicit multiplicity bound. -/

/-- The number of entries under one key. -/
def keyCount (c : StateCache) (key : String) : Nat :=
  c.entries.countP (fun p => decide (p.1 = key))

theorem alLookup_eq_none_of_countP_zero {K V : Type} [DecidableEq K] :
    ∀ (l : List (K × V)) (key : K),
      l.countP (fun p => decide (p.1 = key)) = 0 → alLookup l key = none := by
  intro l key
  induction l with
  | nil => intro _; rfl
  | cons q rest ih =>
      obtain ⟨k, v⟩ := q
      intro h
      rw [List.countP_cons] at h
      by_cases hk : k = key
      · simp [hk] at h
      · simp [alLookup, hk]
        exact ih (by omega)

theorem countP_zero_of_alLookup_eq_none {K V : Type} [DecidableEq K] :
    ∀ (l : List (K × V)) (key : K),
      alLookup l key = none → l.countP (fun p => decide (p.1 = key)) = 0 := by
  intro l key
  induction l with
  | nil => intro _; rfl
  | cons q rest ih =>
      obtain ⟨k, v⟩ := q
      intro h
      by_cases hk : k = key
      · simp [alLookup, hk] at h
      · simp only [alLookup, if_neg hk] at h
        rw [List.countP_cons]
        have h0 := ih h
        simp [hk, h0]

theorem countP_alReplace {K V : Type} [DecidableEq K] (key : K) (v : V) :
    ∀ l : List (K × V),
      (alReplace l key v).countP (fun p => decide (p.1 = key)) =
        l.countP (fun p => decide (p.1 = key)) := by
  intro l
  induction l with
  | nil => rfl
  | cons q rest ih =>
      obtain ⟨k, u⟩ := q
      by_cases hk : k = key
      · simp [alReplace, hk, List.countP_cons]
      · simp [alReplace, hk, List.countP_cons, ih]

theorem alLookup_alErase_of_unique {K V : Type} [DecidableEq K] :
    ∀ (l : List (K × V)) (key : K),
      l.countP (fun p => decide (p.1 = key)) ≤ 1 →
      alLookup (alErase l key) key = none := by
  intro l key
  induction l with
  | nil => intro _; rfl
  | cons q rest ih =>
      obtain ⟨k, v⟩ := q
      intro h
      by_cases hk : k = key
      · rw [List.countP_cons_of_pos _ _ (by simp [hk])] at h
        simp [alErase, hk]
        exact alLookup_eq_none_of_countP_zero rest key (by omega)
      · rw [List.countP_cons_of_neg _ _ (by simp [hk])] at h
        simp [alErase, alLookup, hk]
        exact ih h

theorem keyCount_getOrCreate (c : StateCache) (key : String)
    (h : keyCount c key ≤ 1) : keyCount (cacheGetOrCreate c key) key ≤ 1 := by
  unfold cacheGetOrCreate
  cases hl : alLookup c.entries key with
  | some e =>
      unfold keyCount
      rw [countP_alReplace]
      exact h
  | none =>
      unfold keyCount
      have h0 := countP_zero_of_alLookup_eq_none c.entries key hl
      simp [List.countP_cons, h0]

theorem keyCount_updateObjectSize (c : StateCache) (key : String) (size : Nat)
    (h : keyCount c key ≤ 1) : keyCount (cacheUpdateObjectSize c key size) key ≤ 1 := by
  unfold cacheUpdateObjectSize
  cases hl : alLookup c.entries key with
  | some e =>
      unfold keyCount
      rw [countP_alReplace]
      exact h
  | none => exact h

theorem statusIsOk_false_of_memLimit {s : Status} (h : s.isMemLimitExceeded = true) :
    s.isOk = false := by
  cases s <;> simp_all [Status.isOk, Status.isMemLimitExceeded]

theorem statusIsOk_false_of_timeOut {s : Status} (h : s.isTimeOut = true) :
    s.isOk = false := by
  cases s <;> simp_all [Status.isOk, Status.isTimeOut]

/-- C4: for a rowset with data files on a tablet not mid schema-change and
with a successful index preload, a state-load failure removes the created
cache entry — a later `TEST_update_state_exist` for the (tablet, rowset)
pair returns `false` — and a MemoryLimitExceeded or TimedOut failure is
absorbed into an OK return while any other failure is propagated. -/
theorem on_rowset_finished_soft_failure :
    ∀ (st : UMStateCaches) (ts : TabletState) (r : RowsetInfo) (pst lst : Status) (mu : Nat),
      r.hasDataFiles = true → ts ≠ TabletState.notReady →
      (r.isPartialUpdate = true → pst.isOk = true) →
      keyCount st.updateStateCache (rowsetStateKey r) ≤ 1 →
      keyCount st.updateColumnStateCache (rowsetStateKey r) ≤ 1 →
      ((lst.isMemLimitExceeded = true ∨ lst.isTimeOut = true) →
        (onRowsetFinished st ts r pst lst mu).1 = Status.ok ∧
        TESTUpdateStateExist (onRowsetFinished st ts r pst lst mu).2 r = false) ∧
      (lst.isOk = false → lst.isMemLimitExceeded = false → lst.isTimeOut = false →
        (onRowsetFinished st ts r pst lst mu).1 = lst ∧
        TESTUpdateStateExist (onRowsetFinished st ts r pst lst mu).2 r = false) := by
  intro st ts r pst lst mu hdf hts hp hc1 hc2
  have hcond2 : (r.isPartialUpdate && !pst.isOk) = false := by
    cases hpu : r.isPartialUpdate with
    | false => simp
    | true => simp [hp hpu]
  have hnone1 : alLookup (cacheRemove (cacheUpdateObjectSize
      (cacheGetOrCreate st.updateStateCache (rowsetStateKey r)) (rowsetStateKey r) mu)
      (rowsetStateKey r)).entries (rowsetStateKey r) = none :=
    alLookup_alErase_of_unique _ _
      (keyCount_updateObjectSize _ _ mu (keyCount_getOrCreate _ _ hc1))
  have hnone2 : alLookup (cacheRemove (cacheUpdateObjectSize
      (cacheGetOrCreate st.updateColumnStateCache (rowsetStateKey r)) (rowsetStateKey r) mu)
      (rowsetStateKey r)).entries (rowsetStateKey r) = none :=
    alLookup_alErase_of_unique _ _
      (keyCount_updateObjectSize _ _ mu (keyCount_getOrCreate _ _ hc2))
  constructor
  · intro hsoft
    have hok : lst.isOk = false := by
      cases hsoft with
      | inl h => exact statusIsOk_false_of_memLimit h
      | inr h => exact statusIsOk_false_of_timeOut h
    have hbool : (lst.isMemLimitExceeded || lst.isTimeOut) = true := by
      cases hsoft with
      | inl h => simp [h]
      | inr h => simp [h]
    cases hcm : r.isColumnModePartialUpdate with
    | true =>
        constructor
        · simp [onRowsetFinished, hdf, hts, hcond2, hcm, hbool]
        · simp [onRowsetFinished, hdf, hts, hcond2, hcm, hok, TESTUpdateStateExist, hnone2]
    | false =>
        constructor
        · simp [onRowsetFinished, hdf, hts, hcond2, hcm, hbool]
        · simp [onRowsetFinished, hdf, hts, hcond2, hcm, hok, TESTUpdateStateExist, hnone1]
  · intro hok hmem htime
    have hbool : (lst.isMemLimitExceeded || lst.isTimeOut) = false := by
      simp [hmem, htime]
    cases hcm : r.isColumnModePartialUpdate with
    | true =>
        constructor
        · simp [onRowsetFinished, hdf, hts, hcond2, hcm, hbool]
        · simp [onRowsetFinished, hdf, hts, hcond2, hcm, hok, TESTUpdateStateExist, hnone2]
    | false =>
        constructor
        · simp [onRowsetFinished, hdf, hts, hcond2, hcm, hbool]
        · simp [onRowsetFinished, hdf, hts, hcond2, hcm, hok, TESTUpdateStateExist, hnone1]

/-- C4 witness: a row-mode load failing with MemoryLimitExceeded yields an OK
return and a false `TEST_update_state_exist`; an IO failure propagates. -/
theorem on_rowset_finished_soft_failure_witness :
    ((onRowsetFinished ⟨⟨[]⟩, ⟨[]⟩⟩ TabletState.normal ⟨1, "r1", true, false, false⟩
        Status.ok (Status.memoryLimitExceeded ("oom")) 0).1 = Status.ok ∧
      TESTUpdateStateExist (onRowsetFinished ⟨⟨[]⟩, ⟨[]⟩⟩ TabletState.normal
        ⟨1, "r1", true, false, false⟩ Status.ok (Status.memoryLimitExceeded ("oom")) 0).2
        ⟨1, "r1", true, false, false⟩ = false) ∧
    ((onRowsetFinished ⟨⟨[]⟩, ⟨[]⟩⟩ TabletState.normal ⟨1, "r1", true, false, false⟩
        Status.ok (Status.ioError ("disk")) 0).1 = Status.ioError ("disk") ∧
      TESTUpdateStateExist (onRowsetFinished ⟨⟨[]⟩, ⟨[]⟩⟩ TabletState.normal
        ⟨1, "r1", true, false, false⟩ Status.ok (Status.ioError ("disk")) 0).2
        ⟨1, "r1", true, false, false⟩ = false) :=
  ⟨(on_rowset_finished_soft_failure ⟨⟨[]⟩, ⟨[]⟩⟩ TabletState.normal
      ⟨1, "r1", true, false, false⟩ Status.ok (Status.memoryLimitExceeded ("oom")) 0
      (by decide) (by decide) (by intro h; rfl) (by decide) (by decide)).1
      (Or.inl (by decide)),
   (on_rowset_finished_soft_failure ⟨⟨[]⟩, ⟨[]⟩⟩ TabletState.normal
      ⟨1, "r1", true, false, false⟩ Status.ok (Status.ioError ("disk")) 0
      (by decide) (by decide) (by intro h; rfl) (by decide) (by decide)).2
      (by decide) (by decide) (by decide)⟩

/-! ### Eviction lemmas (claim C5) -/

theorem pickLargestEvictable_spec :
    ∀ (l : List IndexCacheEntry) (e : IndexCacheEntry),
      pickLargestEvictable l = some e → e ∈ l ∧ e.refcnt = 0 := by
  intro l
  induction l with
  | nil => intro e h; cases h
  | cons x rest ih =>
      intro e h
      cases hp : pickLargestEvictable rest with
      | none =>
          simp only [pickLargestEvictable, hp] at h
          by_cases hx : x.refcnt = 0
          · rw [if_pos hx] at h
            cases h
            exact ⟨List.mem_cons_self _ _, hx⟩
          · rw [if_neg hx] at h
            cases h
      | some b =>
          simp only [pickLargestEvictable, hp] at h
          by_cases hx : (decide (x.refcnt = 0) && decide (b.objSize ≤ x.objSize)) = true
          · rw [if_pos hx] at h
            cases h
            have h1 := (Bool.and_eq_true _ _).mp hx
            exact ⟨List.mem_cons_self _ _, of_decide_eq_true h1.1⟩
          · rw [if_neg hx] at h
            cases h
            have hb := ih _ hp
            exact ⟨List.mem_cons_of_mem _ hb.1, hb.2⟩

theorem pickLargestEvictable_isSome :
    ∀ (l : List IndexCacheEntry), (∀ e ∈ l, e.refcnt = 0) → l ≠ [] →
      (pickLargestEvictable l).isSome = true := by
  intro l
  induction l with
  | nil => intro _ h; exact absurd rfl h
  | cons x rest ih =>
      intro hall _
      cases hp : pickLargestEvictable rest with
      | none =>
          have hx : x.refcnt = 0 := hall x (List.mem_cons_self _ _)
          simp [pickLargestEvictable, hp, hx]
      | some b =>
          simp only [pickLargestEvictable, hp]
          split <;> simp

theorem removeEntry_subset :
    ∀ (l : List IndexCacheEntry) (e x : IndexCacheEntry),
      x ∈ removeEntry l e → x ∈ l := by
  intro l
  induction l with
  | nil => intro e x h; cases h
  | cons y rest ih =>
      intro e x h
      unfold removeEntry at h
      by_cases hy : y = e
      · rw [if_pos hy] at h
        exact List.mem_cons_of_mem _ h
      · rw [if_neg hy] at h
        cases h with
        | head => exact List.mem_cons_self _ _
        | tail _ ht => exact List.mem_cons_of_mem _ (ih e x ht)

theorem removeEntry_length :
    ∀ (l : List IndexCacheEntry) (e : IndexCacheEntry),
      e ∈ l → (removeEntry l e).length + 1 = l.length := by
  intro l
  induction l with
  | nil => intro e h; cases h
  | cons y rest ih =>
      intro e h
      unfold removeEntry
      by_cases hy : y = e
      · rw [if_pos hy]
        rfl
      · rw [if_neg hy]
        cases h with
        | head => exact absurd rfl hy
        | tail _ ht =>
            have := ih e ht
            simp [List.length_cons]
            omega

theorem tryEvictGo_le (target : Nat) :
    ∀ (fuel : Nat) (l : List IndexCacheEntry),
      (∀ e ∈ l, e.refcnt = 0) → l.length ≤ fuel →
      ((tryEvictGo target fuel l).map IndexCacheEntry.objSize).sum ≤ target := by
  intro fuel
  induction fuel with
  | zero =>
      intro l hall hlen
      have hl : l = [] := List.length_eq_zero.mp (by omega)
      subst hl
      simp [tryEvictGo]
  | succ n ih =>
      intro l hall hlen
      unfold tryEvictGo
      by_cases hsz : (l.map IndexCacheEntry.objSize).sum ≤ target
      · rw [if_pos hsz]
        exact hsz
      · rw [if_neg hsz]
        have hne : l ≠ [] := by
          intro he
          subst he
          simp at hsz
        cases hp : pickLargestEvictable l with
        | none =>
            have hs := pickLargestEvictable_isSome l hall hne
            rw [hp] at hs
            cases hs
        | some e =>
            have hmem := (pickLargestEvictable_spec l e hp).1
            apply ih
            · intro x hx
              exact hall x (removeEntry_subset l e x hx)
            · have := removeEntry_length l e hmem
              omega

theorem tryEvictGo_subset (target : Nat) :
    ∀ (fuel : Nat) (l : List IndexCacheEntry) (x : IndexCacheEntry),
      x ∈ tryEvictGo target fuel l → x ∈ l := by
  intro fuel
  induction fuel with
  | zero => intro l x h; exact h
  | succ n ih =>
      intro l x h
      unfold tryEvictGo at h
      split at h
      · exact h
      · cases hp : pickLargestEvictable l with
        | none =>
            rw [hp] at h
            exact h
        | some e =>
            rw [hp] at h
            exact removeEntry_subset l e x (ih _ x h)

theorem tryEvict_size_le (c : IndexCache) (target : Nat)
    (hall : ∀ e ∈ c.entries, e.refcnt = 0) :
    indexCacheSize (tryEvict c target) ≤ target := by
  exact tryEvictGo_le target c.entries.length c.entries hall (le_refl _)

theorem evictStage1_all_evictable (c : IndexCache) (memoryUrgent : Nat)
    (hall : ∀ e ∈ c.entries, e.refcnt = 0) :
    ∀ e ∈ (evictStage1 c memoryUrgent).entries, e.refcnt = 0 := by
  unfold evictStage1
  split
  · intro e he
    exact hall e (tryEvictGo_subset memoryUrgent c.entries.length c.entries e he)
  · exact hall

/-- C5: `evict_cache` implements the damped two-stage policy — when the index
cache size exceeds the urgent watermark (`urgent_pct` percent of capacity) it
evicts down to that watermark (here under the sufficient-evictability
hypothesis that no entry is referenced); it then re-measures and, when still
above the high watermark, evicts down to `max(size * 9 / 10, high watermark)`;
stages that are not triggered leave the cache untouched; and the
keep-auxiliary-filter flag comes back `true` exactly when the resulting size
does not exceed the high watermark. -/
theorem evict_cache_two_stage_policy :
    ∀ (c : IndexCache) (uLvl hLvl : Nat),
      (∀ e ∈ c.entries, e.refcnt = 0) →
      (c.capacity * uLvl / 100 < indexCacheSize c →
        indexCacheSize (evictStage1 c (c.capacity * uLvl / 100)) ≤ c.capacity * uLvl / 100) ∧
      (indexCacheSize c ≤ c.capacity * uLvl / 100 →
        evictStage1 c (c.capacity * uLvl / 100) = c) ∧
      (c.capacity * hLvl / 100 < indexCacheSize (evictStage1 c (c.capacity * uLvl / 100)) →
        indexCacheSize (evictStage2 (evictStage1 c (c.capacity * uLvl / 100))
            (c.capacity * hLvl / 100)) ≤
          max (indexCacheSize (evictStage1 c (c.capacity * uLvl / 100)) * 9 / 10)
            (c.capacity * hLvl / 100)) ∧
      (indexCacheSize (evictStage1 c (c.capacity * uLvl / 100)) ≤ c.capacity * hLvl / 100 →
        evictStage2 (evictStage1 c (c.capacity * uLvl / 100)) (c.capacity * hLvl / 100) =
          evictStage1 c (c.capacity * uLvl / 100)) ∧
      ((evictCache c uLvl hLvl).1 =
        evictStage2 (evictStage1 c (c.capacity * uLvl / 100)) (c.capacity * hLvl / 100)) ∧
      ((evictCache c uLvl hLvl).2 = true ↔
        indexCacheSize (evictCache c uLvl hLvl).1 ≤ c.capacity * hLvl / 100) := by
  intro c uLvl hLvl hall
  have hall1 := evictStage1_all_evictable c (c.capacity * uLvl / 100) hall
  refine ⟨?_, ?_, ?_, ?_, rfl, ?_⟩
  · intro h
    unfold evictStage1
    rw [if_pos h]
    exact tryEvict_size_le c _ hall
  · intro h
    unfold evictStage1
    rw [if_neg (by omega)]
  · intro h
    unfold evictStage2
    rw [if_pos h]
    exact tryEvict_size_le _ _ hall1
  · intro h
    unfold evictStage2
    rw [if_neg (by omega)]
  · unfold evictCache
    simp

/-- C5 witness: capacity 100 with refcount-zero entries of sizes 50, 40, 30
(total 120), urgent 80 %, high 50 %: stage one evicts to ≤ 80, and the final
flag is true exactly when the final size is at or below 50. -/
theorem evict_cache_two_stage_policy_witness :
    (∀ e ∈ (⟨100, [⟨1, 50, 0⟩, ⟨2, 40, 0⟩, ⟨3, 30, 0⟩]⟩ : IndexCache).entries,
      e.refcnt = 0) ∧
    ((100 : Nat) * 80 / 100 < indexCacheSize ⟨100, [⟨1, 50, 0⟩, ⟨2, 40, 0⟩, ⟨3, 30, 0⟩]⟩) ∧
    indexCacheSize (evictStage1 ⟨100, [⟨1, 50, 0⟩, ⟨2, 40, 0⟩, ⟨3, 30, 0⟩]⟩
      ((⟨100, [⟨1, 50, 0⟩, ⟨2, 40, 0⟩, ⟨3, 30, 0⟩]⟩ : IndexCache).capacity * 80 / 100)) ≤
      (⟨100, [⟨1, 50, 0⟩, ⟨2, 40, 0⟩, ⟨3, 30, 0⟩]⟩ : IndexCache).capacity * 80 / 100 ∧
    ((evictCache ⟨100, [⟨1, 50, 0⟩, ⟨2, 40, 0⟩, ⟨3, 30, 0⟩]⟩ 80 50).2 = true ↔
      indexCacheSize (evictCache ⟨100, [⟨1, 50, 0⟩, ⟨2, 40, 0⟩, ⟨3, 30, 0⟩]⟩ 80 50).1 ≤
        (⟨100, [⟨1, 50, 0⟩, ⟨2, 40, 0⟩, ⟨3, 30, 0⟩]⟩ : IndexCache).capacity * 50 / 100) :=
  ⟨by decide, by decide,
   (evict_cache_two_stage_policy ⟨100, [⟨1, 50, 0⟩, ⟨2, 40, 0⟩, ⟨3, 30, 0⟩]⟩ 80 50
      (by decide)).1 (by decide),
   (evict_cache_two_stage_policy ⟨100, [⟨1, 50, 0⟩, ⟨2, 40, 0⟩, ⟨3, 30, 0⟩]⟩ 80 50
      (by decide)).2.2.2.2.2⟩

end UpdateManagerModel
